import Mathlib

/-!
Terraform scanner service: document builder and policy loader.

A shallow embedding of `internal/scanner/terraform_parser.go`,
`internal/scanner/policy_loader.go` and `internal/scanner/rego_engine.go`, followed by the
properties proved about it.

Go's `interface{}` values are embedded as the inductive type `Value`; a Go
`map[string]interface{}` is an association list `GoMap` read with `mapGet` and written
with `mapSet`, so that a key is bound at most once as long as writes go through `mapSet`.
Calls into libraries outside the repository (the HCL parser, the cty value library, the
OPA compiler and rego runtime) appear as data carried by the input or as function
parameters.
-/

set_option autoImplicit false

namespace Scanner

/-! ## Generic values (`interface{}`) -/

/-- Dynamically typed Go value: `nil`, `string`, `float64`, `bool`, `[]interface{}` and
`map[string]interface{}` as produced by the document builder, and `json.Number` (the
number literal as text), which is how the rego runtime returns the numbers of a rule
output. -/
inductive Value where
  | null
  | str (s : String)
  | num (f : ℚ)
  | bool (b : Bool)
  | list (xs : List Value)
  | map (kvs : List (String × Value))
  | jsonNumber (text : String)

/-- Go `map[string]interface{}`, as the list of its bindings. -/
abbrev GoMap := List (String × Value)

mutual
/-- Structural equality test on values. -/
def Value.beq : Value → Value → Bool
  | .null, .null => true
  | .str a, .str b => a == b
  | .num a, .num b => a == b
  | .bool a, .bool b => a == b
  | .list a, .list b => Value.beqList a b
  | .map a, .map b => Value.beqMap a b
  | .jsonNumber a, .jsonNumber b => a == b
  | _, _ => false
/-- Structural equality test on lists of values. -/
def Value.beqList : List Value → List Value → Bool
  | [], [] => true
  | a :: as, b :: bs => Value.beq a b && Value.beqList as bs
  | _, _ => false
/-- Structural equality test on binding lists. -/
def Value.beqMap : List (String × Value) → List (String × Value) → Bool
  | [], [] => true
  | (k, a) :: as, (j, b) :: bs => k == j && Value.beq a b && Value.beqMap as bs
  | _, _ => false
end

/-- Map read `m[key]`: the value bound to `key`, or `none` when the key is absent. -/
def mapGet : GoMap → String → Option Value
  | [], _ => none
  | (k, v) :: rest, key => if k = key then some v else mapGet rest key

/-- Map write `m[key] = val`: rebinds `key` when present, adds a binding otherwise. -/
def mapSet : GoMap → String → Value → GoMap
  | [], key, val => [(key, val)]
  | (k, v) :: rest, key, val =>
    if k = key then (k, val) :: rest else (k, v) :: mapSet rest key val

/-- The keys bound in a map, in binding order. -/
def mapKeys (m : GoMap) : List String := m.map Prod.fst

mutual
/-- Unique keys in every map reachable from the value (the Go map invariant). -/
def Value.wf : Value → Bool
  | .list xs => wfList xs
  | .map kvs => wfMap kvs
  | _ => true
/-- Every element of the list is well formed. -/
def wfList : List Value → Bool
  | [] => true
  | v :: rest => Value.wf v && wfList rest
/-- The binding list has unique keys and well-formed values. -/
def wfMap : List (String × Value) → Bool
  | [] => true
  | (k, v) :: rest => (mapGet rest k).isNone && Value.wf v && wfMap rest
end

mutual
/-- The value is not a list and no key below it is bound to a list. -/
def Value.noLists : Value → Bool
  | .list _ => false
  | .map kvs => noListsMap kvs
  | _ => true
/-- No key of the map, at any depth, is bound to a list. -/
def noListsMap : List (String × Value) → Bool
  | [] => true
  | (_, v) :: rest => Value.noLists v && noListsMap rest
end

/-! ## `terraform_parser.go`: directory merge -/

mutual
/-- Value stored at `dst[key]` by one iteration of `mergeResults`, given the previous
`dst[key]` (if any) and `src[key]`: both maps, the recursively merged map; otherwise
`srcVal`. -/
def mergeVal (dstVal : Option Value) : Value → Value
  | .map srcMap =>
    match dstVal with
    | some (.map dstMap) => .map (mergeResults dstMap srcMap)
    | _ => .map srcMap
  | srcVal => srcVal
/-- One iteration of the loop of `mergeResults`, for the binding `key, srcVal` of `src`. -/
def mergeEntry (dst : GoMap) : String × Value → GoMap
  | (key, srcVal) => mapSet dst key (mergeVal (mapGet dst key) srcVal)
/-- `mergeResults(dst, src)`: the loop over the bindings of `src`, returning the final
contents of `dst` (which the Go code updates in place). -/
def mergeResults (dst : GoMap) : GoMap → GoMap
  | [] => dst
  | e :: rest => mergeResults (mergeEntry dst e) rest
end

/-- `strings.HasSuffix`. -/
def HasSuffix (s suffix : String) : Bool := suffix.data.isSuffixOf s.data

/-- Directory entry as listed by `os.ReadDir`. -/
structure DirEntry where
  name : String
  isDir : Bool

/-- The loop of `ParseDirectory` over the directory entries, threading `merged`.
`parseFile name` stands for `tp.ParseFile(filepath.Join(dir, name))`. -/
def parseEntries (parseFile : String → Except String GoMap) :
    List DirEntry → GoMap → GoMap
  | [], merged => merged
  | entry :: rest, merged =>
    if entry.isDir then parseEntries parseFile rest merged
    else if HasSuffix entry.name ".tf" || HasSuffix entry.name ".tf.json" then
      match parseFile entry.name with
      | .error _ => parseEntries parseFile rest merged
      | .ok result => parseEntries parseFile rest (mergeResults merged result)
    else parseEntries parseFile rest merged

/-- `ParseDirectory(dir)`: `readDir` is the outcome of `os.ReadDir(dir)`. -/
def ParseDirectory (parseFile : String → Except String GoMap) (dir : String)
    (readDir : Except String (List DirEntry)) : Except String GoMap :=
  match readDir with
  | .error e => .error ("failed to read directory: " ++ e)
  | .ok entries =>
    let merged := parseEntries parseFile entries []
    if merged.length = 0 then .error ("no valid Terraform files found in " ++ dir)
    else .ok merged

/-- The entry `tree["variable"]["region"]` of a document tree, when `tree["variable"]` is
a map. -/
def variableRegion (tree : GoMap) : Option Value :=
  match mapGet tree "variable" with
  | some (.map vars) => mapGet vars "region"
  | _ => none

/-- Tree of a first file declaring `variable "region"` with a default and a description. -/
def regionFileA : GoMap :=
  [("variable", .map [("region",
      .map [("default", .str "us-east-1"), ("description", .str "AWS region")])])]

/-- Tree of a second file declaring `variable "region"` with a default only. -/
def regionFileB : GoMap :=
  [("variable", .map [("region", .map [("default", .str "eu-west-1")])])]

/-- A directory holding the two files above as `a.tf` and `b.tf`. -/
def regionParseFile (name : String) : Except String GoMap :=
  if name = "a.tf" then .ok regionFileA
  else if name = "b.tf" then .ok regionFileB
  else .error "failed to read file"

/-! ## `terraform_parser.go`: value coercion and block processing

The types below hold what the HCL and cty libraries hand to the parser. -/

/-- The `cty.Value` of an evaluated expression. Collections carry their elements in the
order `ElementIterator` yields them; `other` stands for a value of any remaining type,
with the text `val.GoString()` returns for it. -/
inductive Cty where
  | null
  | string (s : String)
  | number (n : ℚ)
  | bool (b : Bool)
  | list (elems : List Cty)
  | set (elems : List Cty)
  | tuple (elems : List Cty)
  | map (elems : List (String × Cty))
  | object (elems : List (String × Cty))
  | other (goString : String)

/-- Element of a cty map or object under a key. -/
def ctyGet : List (String × Cty) → String → Option Cty
  | [], _ => none
  | (k, v) :: rest, key => if k = key then some v else ctyGet rest key

mutual
/-- `ctyToGo(val)`. `round64` stands for the conversion `val.AsBigFloat().Float64()` of
a number to the nearest `float64`. -/
def ctyToGo (round64 : ℚ → ℚ) : Cty → Value
  | .null => .null
  | .string s => .str s
  | .number n => .num (round64 n)
  | .bool b => .bool b
  | .list elems => .list (ctyToGoElems round64 elems [])
  | .set elems => .list (ctyToGoElems round64 elems [])
  | .tuple elems => .list (ctyToGoElems round64 elems [])
  | .map elems => .map (ctyToGoPairs round64 elems [])
  | .object elems => .map (ctyToGoPairs round64 elems [])
  | .other goString => .str goString
/-- The iterator loop of the list, set and tuple case: `result = append(result, ...)`. -/
def ctyToGoElems (round64 : ℚ → ℚ) : List Cty → List Value → List Value
  | [], result => result
  | v :: rest, result => ctyToGoElems round64 rest (result ++ [ctyToGo round64 v])
/-- The iterator loop of the map and object case: `result[k.AsString()] = ...`. -/
def ctyToGoPairs (round64 : ℚ → ℚ) : List (String × Cty) → GoMap → GoMap
  | [], result => result
  | (k, v) :: rest, result =>
    ctyToGoPairs round64 rest (mapSet result k (ctyToGo round64 v))
end

/-- Byte offsets of an `hcl.Range` (`Start.Byte`, `End.Byte`). -/
structure Range where
  startByte : Int
  endByte : Int

/-- Go slice expression `b[lo:hi]` for `0 ≤ lo ≤ hi ≤ len(b)`. -/
def sliceBytes (b : List UInt8) (lo hi : Int) : List UInt8 :=
  (b.drop lo.toNat).take (hi.toNat - lo.toNat)

/-- `hcl.Range.SliceBytes(b)` of the HCL library: both offsets are clamped into `b`,
the end is raised to the start when it lies before it, and `b[start:end]` is returned. -/
def Range.SliceBytes (r : Range) (b : List UInt8) : List UInt8 :=
  let len : Int := b.length
  let start := if r.startByte < 0 then 0 else if r.startByte > len then len else r.startByte
  let end1 := if r.endByte < 0 then 0 else if r.endByte > len then len else r.endByte
  let end2 := if end1 < start then start else end1
  sliceBytes b start end2

/-- Go conversion `string(bytes)`, one character per byte (exact for ASCII text). -/
def bytesToString (b : List UInt8) : String :=
  String.mk (b.map fun c => Char.ofNat c.toNat)

/-- The bytes of a string literal of the model, one byte per character (ASCII text). -/
def stringToBytes (s : String) : List UInt8 :=
  s.data.map fun c => UInt8.ofNat c.toNat

/-- An `hcl.Attribute`: its name, the outcome of `attr.Expr.Value(nil)` (an error text
when the diagnostics have errors) and `attr.Expr.Range()`. -/
structure Attribute where
  name : String
  value : Except String Cty
  exprRange : Range

/-- An `hcl.Block` as `processBlock` sees it: `Type`, `Labels`, the attributes and the
error flag returned by `block.Body.JustAttributes()`, and the blocks returned by
`block.Body.PartialContent(schema)` in source order. -/
inductive Block where
  | mk (type : String) (labels : List String) (attrs : List Attribute)
      (attrsHasErrors : Bool) (blocks : List Block)

/-- Field `Type` of a block. -/
def Block.type : Block → String
  | .mk type _ _ _ _ => type

/-- Attributes returned by `JustAttributes`. -/
def Block.attrs : Block → List Attribute
  | .mk _ _ attrs _ _ => attrs

/-- Whether the diagnostics of `JustAttributes` have errors. -/
def Block.attrsHasErrors : Block → Bool
  | .mk _ _ _ e _ => e

/-- Nested blocks returned by `PartialContent`. -/
def Block.blocks : Block → List Block
  | .mk _ _ _ _ blocks => blocks

/-- `evalAttribute(attr)`. -/
def evalAttribute (round64 : ℚ → ℚ) (attr : Attribute) : Except String Value :=
  match attr.value with
  | .error e => .error ("evaluation error: " ++ e)
  | .ok val => .ok (ctyToGo round64 val)

/-- Body of the attribute loop of `processBlock`. -/
def processAttr (round64 : ℚ → ℚ) (result : GoMap) (attr : Attribute) : GoMap :=
  match evalAttribute round64 attr with
  | .ok val => mapSet result attr.name val
  | .error _ =>
    mapSet result attr.name
      (.str (bytesToString (attr.exprRange.SliceBytes (attr.exprRange.SliceBytes []))))

/-- The attribute part of `processBlock`: the loop runs only when `JustAttributes`
reported no error. -/
def processAttrs (round64 : ℚ → ℚ) (attrs : List Attribute) (hasErrors : Bool) : GoMap :=
  if !hasErrors then attrs.foldl (processAttr round64) [] else []

/-- Body of the nested-block loop of `processBlock`, given the nested block's type and
its processed body `nestedData`. -/
def collectNested (result : GoMap) (type : String) (nestedData : GoMap) : GoMap :=
  match mapGet result type with
  | some existing =>
    match existing with
    | .list arr => mapSet result type (.list (arr ++ [.map nestedData]))
    | _ => mapSet result type (.list [existing, .map nestedData])
  | none => mapSet result type (.map nestedData)

mutual
/-- `processBlock(block)`. -/
def processBlock (round64 : ℚ → ℚ) : Block → GoMap
  | .mk _ _ attrs hasErrors blocks =>
    processNested round64 blocks (processAttrs round64 attrs hasErrors)
/-- The nested-block loop of `processBlock`, threading `result`. -/
def processNested (round64 : ℚ → ℚ) : List Block → GoMap → GoMap
  | [], result => result
  | .mk type labels attrs hasErrors blocks :: rest, result =>
    processNested round64 rest
      (collectNested result type (processBlock round64 (.mk type labels attrs hasErrors blocks)))
end

/-- The source text covered by a range: the bytes of the file from the start offset up
to the end offset. -/
def rawSourceText (src : List UInt8) (r : Range) : String :=
  bytesToString (sliceBytes src r.startByte r.endByte)

/-! ## `policy_loader.go`: metadata extraction and defensive compilation -/

/-- `types.PolicyMetadata`; the zero value has every string empty and no references. -/
structure PolicyMetadata where
  ID : String := ""
  AVDID : String := ""
  Title : String := ""
  ShortCode : String := ""
  Description : String := ""
  Service : String := ""
  Provider : String := ""
  Severity : String := ""
  Resolution : String := ""
  References : List String := []
deriving DecidableEq, Repr

/-- An annotation block of a module (`ast.Annotations`): its scope and custom fields. -/
structure Annotation where
  Scope : String
  Custom : GoMap

/-- An `ast.Module` as the loader reads it: `Package` is `module.Package.Path.String()`
when `module.Package` is not nil, and `Annotations` are the module's annotation blocks. -/
structure Module where
  Package : Option String
  Annotations : List Annotation

/-- Pieces of a character list between occurrences of a separator character. -/
def splitChars (sep : Char) : List Char → List (List Char)
  | [] => [[]]
  | c :: rest =>
    if c = sep then [] :: splitChars sep rest
    else
      match splitChars sep rest with
      | [] => [[c]]
      | hd :: tl => (c :: hd) :: tl

/-- `strings.Split(s, ".")`. -/
def splitDot (s : String) : List String := (splitChars '.' s.data).map String.mk

/-- The references loop: appends every string element of `refs` to `acc`. -/
def appendRefs (acc : List String) : List Value → List String
  | [] => acc
  | .str refStr :: rest => appendRefs (acc ++ [refStr]) rest
  | _ :: rest => appendRefs acc rest

/-- A type assertion `v.(string)` on a map entry guarding an assignment: `assign md s`
when the entry is present and holds the string `s`, `md` unchanged otherwise. -/
def ifString (v : Option Value) (md : PolicyMetadata)
    (assign : PolicyMetadata → String → PolicyMetadata) : PolicyMetadata :=
  match v with
  | some (.str s) => assign md s
  | _ => md

/-- The type assertion `v.([]interface{})` guarding an update, as `ifString`. -/
def ifList (v : Option Value) (md : PolicyMetadata)
    (assign : PolicyMetadata → List Value → PolicyMetadata) : PolicyMetadata :=
  match v with
  | some (.list xs) => assign md xs
  | _ => md

/-- Body of the annotation loop of `extractMetadata`. `toUpper` is `strings.ToUpper`. -/
def scanAnnot (toUpper : String → String) (md : PolicyMetadata)
    (annot : Annotation) : PolicyMetadata :=
  if annot.Scope ≠ "package" ∧ annot.Scope ≠ "rule" then md
  else
    let md := ifString (mapGet annot.Custom "title") md
      fun md title => { md with Title := title }
    let md := ifString (mapGet annot.Custom "description") md
      fun md desc => { md with Description := desc }
    let md := ifString (mapGet annot.Custom "id") md
      fun md id => { md with ID := id, AVDID := id }
    let md := ifString (mapGet annot.Custom "severity") md
      fun md severity => { md with Severity := toUpper severity }
    let md := ifString (mapGet annot.Custom "service") md
      fun md service => { md with Service := service }
    let md := ifString (mapGet annot.Custom "provider") md
      fun md provider => { md with Provider := provider }
    let md := ifString (mapGet annot.Custom "remediation") md
      fun md resolution => { md with Resolution := resolution }
    let md := ifString (mapGet annot.Custom "resolution") md
      fun md resolution => { md with Resolution := resolution }
    ifList (mapGet annot.Custom "references") md
      fun md refs => { md with References := appendRefs md.References refs }

/-- The provider and service fallback of `extractMetadata`, from the package path. -/
def packageFallback (toUpper : String → String) (md : PolicyMetadata)
    (package : Option String) : PolicyMetadata :=
  match package with
  | none => md
  | some path =>
    let parts := splitDot path
    if parts.length ≥ 3 then
      let md :=
        if md.Provider = "" ∧ parts.length > 2 then
          { md with Provider := toUpper (parts.getD 2 "") }
        else md
      if md.Service = "" ∧ parts.length > 3 then
        { md with Service := parts.getD 3 "" }
      else md
    else md

/-- `extractMetadata(module)`; `none` is the nil result. -/
def extractMetadata (toUpper : String → String) (mod : Module) : Option PolicyMetadata :=
  if mod.Annotations.length = 0 then none
  else
    let md := mod.Annotations.foldl (scanAnnot toUpper) {}
    let md := packageFallback toUpper md mod.Package
    if md.ID = "" ∨ md.AVDID = "" then none
    else if md.Severity = "" then some { md with Severity := "MEDIUM" }
    else some md

/-- Source position of a compile error (`ast.Location`). -/
structure Location where
  File : String

/-- An `ast.Error` of the compiler; `Location` is `none` for a nil pointer. -/
structure CompileError where
  Location : Option Location

/-- The loaded modules, `map[string]*ast.Module` keyed by file path. -/
abbrev Modules := List (String × Module)

/-- The metadata map, `map[string]*types.PolicyMetadata`. -/
abbrev MetadataMap := List (String × PolicyMetadata)

/-- The fields of `PolicyLoader` that `compilePolicies` reads and writes. -/
structure PolicyLoader where
  modules : Modules
  metadata : MetadataMap

/-- Map write `pl.metadata[key] = md`. -/
def metaSet : MetadataMap → String → PolicyMetadata → MetadataMap
  | [], key, md => [(key, md)]
  | (k, v) :: rest, key, md =>
    if k = key then (k, md) :: rest else (k, v) :: metaSet rest key md

/-- The files collected into `failedFiles`: those of the errors that carry a location
with a non-empty file name. -/
def failedFiles (errors : List CompileError) : List String :=
  errors.filterMap fun err =>
    match err.Location with
    | some loc => if loc.File ≠ "" then some loc.File else none
    | none => none

/-- The eviction loop: `delete(pl.modules, file)` for each collected file. -/
def deleteModules (modules : Modules) (files : List String) : Modules :=
  files.foldl (fun ms file => ms.filter fun pm => pm.1 ≠ file) modules

/-- The metadata rebuild after a successful compile. -/
def rebuildMetadata (toUpper : String → String) (modules : Modules) : MetadataMap :=
  modules.foldl
    (fun metadata pm =>
      match extractMetadata toUpper pm.2 with
      | some md => metaSet metadata md.ID md
      | none => metadata)
    []

/-- `compilePolicies()`. `compile modules` is the error list `pl.compiler.Errors` left
by `ast.NewCompiler().Compile(pl.modules)`, so `Failed()` is that list being non-empty.
The result is the loader state on return together with the returned error (`none` for
nil). `fuel` bounds the number of invocations (the call and its recursive retries); the
result is `none` when that many invocations do not reach a return. Each invocation whose
first compile fails runs the eviction loop once. -/
def compilePolicies (compile : Modules → List CompileError) (toUpper : String → String) :
    Nat → PolicyLoader → Option (PolicyLoader × Option String)
  | 0, _ => none
  | fuel + 1, pl =>
    if (compile pl.modules).length > 0 then
      let pl1 : PolicyLoader :=
        { pl with modules := deleteModules pl.modules (failedFiles (compile pl.modules)) }
      if pl1.modules.length = 0 then
        some (pl1, some "no policies compiled successfully")
      else if (compile pl1.modules).length > 0 then
        compilePolicies compile toUpper fuel pl1
      else
        some ({ pl1 with metadata := rebuildMetadata toUpper pl1.modules }, none)
    else
      some ({ pl with metadata := rebuildMetadata toUpper pl.modules }, none)

/-- A module in package `data.builtin.aws.s3` with one package annotation giving an id. -/
def sampleModule (id : String) : Module :=
  { Package := some "data.builtin.aws.s3",
    Annotations := [⟨"package", [("id", .str id), ("title", .str "Bucket check")]⟩] }

/-- A compile step that reports, for every module set, one error without a location. -/
def compileUnlocated (_modules : Modules) : List CompileError := [⟨none⟩]

/-- Three loaded modules, two of them listed in `brokenFiles`. -/
def threeModules : Modules :=
  [("cloud/aws/broken.rego", sampleModule "AVD-AWS-0001"),
   ("cloud/aws/s3.rego", sampleModule "AVD-AWS-0002"),
   ("cloud/gcp/broken.rego", sampleModule "AVD-GCP-0001")]

/-- A compile step that reports one located error for every module. -/
def compileAllFail (modules : Modules) : List CompileError :=
  modules.map fun pm => ⟨some ⟨pm.1⟩⟩

/-- Upper-casing of the ASCII letters of a string: `strings.ToUpper` on ASCII text. -/
def asciiUpper (s : String) : String := String.mk (s.data.map Char.toUpper)

/-- A module with an unscoped annotation and two scoped ones, none setting a severity. -/
def twoRuleModule : Module :=
  { Package := some "data.builtin.aws.s3",
    Annotations :=
      [⟨"document", [("id", .str "IGNORED"), ("severity", .str "low")]⟩,
       ⟨"package", [("id", .str "AVD-AWS-0086"), ("title", .str "Public bucket")]⟩,
       ⟨"rule", [("description", .str "Bucket is public"), ("severity", .num 3)]⟩] }

/-- The record `extractMetadata` returns for `twoRuleModule`. -/
def twoRuleRecord : PolicyMetadata :=
  { ID := "AVD-AWS-0086", AVDID := "AVD-AWS-0086", Title := "Public bucket",
    Description := "Bucket is public", Service := "s3", Provider := "AWS",
    Severity := "MEDIUM" }

/-! ## Reading annotations: the last writer of a field -/

/-- Whether the annotation loop of `extractMetadata` reads the annotation: its scope is
`package` or `rule`. -/
def isScoped (annot : Annotation) : Bool :=
  decide (annot.Scope = "package") || decide (annot.Scope = "rule")

/-- The type assertion `v.(string)` on a map entry: the string when the entry is present
and holds one. -/
def asString (v : Option Value) : Option String :=
  match v with
  | some (.str s) => some s
  | _ => none

/-- The custom field `key` of an annotation when it holds a string. -/
def strField (annot : Annotation) (key : String) : Option String :=
  asString (mapGet annot.Custom key)

/-- The string that the last package- or rule-scoped annotation holding a string under
`key` gives for it; `none` when no such annotation holds one. -/
def lastString (annots : List Annotation) (key : String) : Option String :=
  (annots.filterMap fun a => if isScoped a then strField a key else none).getLast?

/-- The resolution text an annotation gives: its `resolution` string, or else its
`remediation` string. -/
def resolutionField (annot : Annotation) : Option String :=
  match strField annot "resolution" with
  | some s => some s
  | none => strField annot "remediation"

/-- The resolution text given by the last package- or rule-scoped annotation that gives
one. -/
def lastResolution (annots : List Annotation) : Option String :=
  (annots.filterMap fun a => if isScoped a then resolutionField a else none).getLast?

/-- The string elements of a `references` list, in order. -/
def refStrings (refs : List Value) : List String :=
  refs.filterMap fun ref =>
    match ref with
    | .str s => some s
    | _ => none

/-- The type assertion `v.([]interface{})` on a map entry. -/
def asList (v : Option Value) : Option (List Value) :=
  match v with
  | some (.list xs) => some xs
  | _ => none

/-- The `references` list an annotation declares, when it holds a list: its string
elements. -/
def refsField (annot : Annotation) : Option (List String) :=
  (asList (mapGet annot.Custom "references")).map refStrings

/-- The string list of the last package- or rule-scoped annotation that declares
`references`. -/
def lastRefs (annots : List Annotation) : Option (List String) :=
  (annots.filterMap fun a => if isScoped a then refsField a else none).getLast?

/-- The reference strings of all package- or rule-scoped annotations, in annotation
order. -/
def allRefs (annots : List Annotation) : List String :=
  annots.flatMap fun a => if isScoped a then (refsField a).getD [] else []

/-- A module whose package annotation and rule annotation both declare references. -/
def twoRefsModule : Module :=
  { Package := some "data.builtin.aws.s3",
    Annotations :=
      [⟨"package", [("id", .str "AVD-AWS-0086"), ("severity", .str "high"),
          ("remediation", .str "Fix it"), ("resolution", .str "Block public access"),
          ("references", .list [.str "https://a.example", .num 1])]⟩,
       ⟨"rule", [("title", .str "Public bucket"),
          ("references", .list [.str "https://b.example"])]⟩] }

/-- The record `extractMetadata` returns for `twoRefsModule`. -/
def twoRefsRecord : PolicyMetadata :=
  { ID := "AVD-AWS-0086", AVDID := "AVD-AWS-0086", Title := "Public bucket",
    Service := "s3", Provider := "AWS", Severity := "HIGH",
    Resolution := "Block public access",
    References := ["https://a.example", "https://b.example"] }

/-- A module whose rule annotation names a provider but no service. -/
def providerModule : Module :=
  { Package := some "data.builtin.aws.s3",
    Annotations := [⟨"rule", [("id", .str "AVD-AWS-0090"), ("provider", .str "custom")]⟩] }

/-- The record `extractMetadata` returns for `providerModule`. -/
def providerRecord : PolicyMetadata :=
  { ID := "AVD-AWS-0090", AVDID := "AVD-AWS-0090", Service := "s3", Provider := "custom",
    Severity := "MEDIUM" }

/-! ## `rego_engine.go`: rule evaluation and finding mapping -/

/-- `types.CauseMetadata` (the `Code` pointer is never set and is left out). -/
structure CauseMetadata where
  Resource : String
  Provider : String
  Service : String
  StartLine : Int
  EndLine : Int
deriving DecidableEq, Repr

/-- `types.Misconfiguration`, the finding record. `Kind` is the Go field `Type`; the empty
`Layer` struct is left out; `CauseMetadata` is `none` for a nil pointer. -/
structure Misconfiguration where
  Kind : String
  ID : String
  AVDID : String
  Title : String
  Description : String
  Message : String
  Namespace : String
  Query : String
  Resolution : String
  Severity : String
  PrimaryURL : String
  References : List String
  Status : String
  CauseMetadata : Option CauseMetadata
deriving DecidableEq, Repr

/-- Whether the second character list occurs in the first as a contiguous run. -/
def containsChars : List Char → List Char → Bool
  | [], sub => sub.isPrefixOf []
  | c :: rest, sub => sub.isPrefixOf (c :: rest) || containsChars rest sub

/-- `strings.Contains(s, substr)`. -/
def Contains (s substr : String) : Bool := containsChars s.data substr.data

/-- `strings.HasPrefix(s, "data.")`. -/
def hasDataPrefix (s : String) : Bool := "data.".data.isPrefixOf s.data

/-- `strings.TrimPrefix(s, "data.")`. -/
def trimDataPrefix (s : String) : String :=
  if hasDataPrefix s then String.mk (s.data.drop 5) else s

/-- Lower-casing of the ASCII letters of a string: `strings.ToLower` on ASCII text. -/
def asciiLower (s : String) : String := String.mk (s.data.map Char.toLower)

/-- The outcome of `r.Eval(ctx)` for one query: an error text, or the result set as the
list of its results, each the list of its expression values (`.null` for a nil value). -/
abbrev EvalOutcome := Except String (List (List Value))

/-- The maps one expression value contributes in `evaluateRule`: the map elements of a
list, or the map itself; nothing for nil or any other value. -/
def exprResults : Value → List GoMap
  | .list v =>
    v.filterMap fun item =>
      match item with
      | .map m => some m
      | _ => none
  | .map v => [v]
  | _ => []

/-- `evaluateRule(ctx, namespace, ruleName, input)`. `eval query` stands for the
evaluation of `query` by the rego runtime over the compiled corpus and the input. -/
def evaluateRule (eval : String → EvalOutcome) (ns ruleName : String) :
    Except String (List GoMap) :=
  let query := "data." ++ ns ++ "." ++ ruleName
  match eval query with
  | .error e => .error e
  | .ok rs => .ok (rs.flatMap fun result => result.flatMap exprResults)

/-- One family loop of `evaluateModule`: each result gets `result["_severity"] = tag`
and is appended to `allResults`. -/
def tagInto (tag : String) (allResults : List GoMap) (results : List GoMap) : List GoMap :=
  results.foldl (fun all result => all ++ [mapSet result "_severity" (.str tag)]) allResults

/-- `evaluateModule(ctx, namespace, input)`; the returned error is always nil. -/
def evaluateModule (eval : String → EvalOutcome) (ns : String) :
    Except String (List GoMap) :=
  let allResults : List GoMap := []
  let allResults :=
    match evaluateRule eval ns "deny" with
    | .ok denyResults => tagInto "FAIL" allResults denyResults
    | .error _ => allResults
  let allResults :=
    match evaluateRule eval ns "violation" with
    | .ok violationResults => tagInto "FAIL" allResults violationResults
    | .error _ => allResults
  let allResults :=
    match evaluateRule eval ns "warn" with
    | .ok warnResults => tagInto "WARN" allResults warnResults
    | .error _ => allResults
  .ok allResults

/-- The metadata lookup loop of `resultToMisconfiguration`: the first record, in the
iteration order of the metadata map, whose lower-cased `Service` occurs in the
namespace; `none` when the loop leaves `meta` nil. `toLower` is `strings.ToLower`. -/
def findMeta (toLower : String → String) (metadata : MetadataMap) (ns : String) :
    Option PolicyMetadata :=
  (metadata.find? fun km => Contains ns (toLower km.2.Service)).map Prod.snd

/-- The record synthesized when no metadata record matches. -/
def fallbackMeta (ns : String) : PolicyMetadata :=
  { ID := ns, AVDID := ns, Title := "Security Check", Severity := "MEDIUM" }

/-- The record `resultToMisconfiguration` reads the finding's metadata from. -/
def chosenMeta (toLower : String → String) (metadata : MetadataMap) (ns : String) :
    PolicyMetadata :=
  match findMeta toLower metadata ns with
  | some m => m
  | none => fallbackMeta ns

/-- Go conversion `int(line)` of a `float64` to the 64-bit `int`: truncation toward zero
when the truncated value fits in 64 bits. When it does not fit, the Go specification
leaves the result to the implementation; the value taken here is the smallest `int`,
which is what amd64 produces. -/
def floatToInt (line : ℚ) : Int :=
  if -9223372036854775808 ≤ Int.tdiv line.num line.den ∧
      Int.tdiv line.num line.den ≤ 9223372036854775807 then
    Int.tdiv line.num line.den
  else -9223372036854775808

/-- The line number read by `result[key].(float64)` followed by `int(line)`; 0 when the
type assertion fails, that is for an absent entry and for an entry of any other dynamic
type, `json.Number` included. -/
def lineOf (v : Option Value) : Int :=
  match v with
  | some (.num line) => floatToInt line
  | _ => 0

/-- `resultToMisconfiguration(result, namespace, targetPath)`; the returned pointer is
never nil. -/
def resultToMisconfiguration (toLower : String → String) (metadata : MetadataMap)
    (result : GoMap) (ns : String) (_targetPath : String) : Misconfiguration :=
  let md := chosenMeta toLower metadata ns
  let msg := (asString (mapGet result "msg")).getD ""
  let msg := if msg = "" then (asString (mapGet result "message")).getD "" else msg
  let msg := if msg = "" then md.Description else msg
  let resource := (asString (mapGet result "resource")).getD ""
  let startLine := lineOf (mapGet result "startline")
  let endLine := lineOf (mapGet result "endline")
  let status :=
    match asString (mapGet result "_severity") with
    | some severity => if severity = "WARN" then "WARN" else "FAIL"
    | none => "FAIL"
  { Kind := "Terraform Security Check",
    ID := md.ID,
    AVDID := md.AVDID,
    Title := md.Title,
    Description := md.Description,
    Message := msg,
    Namespace := ns,
    Query := "data." ++ ns ++ ".deny",
    Resolution := md.Resolution,
    Severity := md.Severity,
    PrimaryURL := "https://avd.aquasec.com/misconfig/" ++ toLower md.AVDID,
    References := md.References,
    Status := status,
    CauseMetadata :=
      if resource ≠ "" ∨ startLine > 0 then
        some { Resource := resource, Provider := md.Provider, Service := md.Service,
               StartLine := startLine, EndLine := endLine }
      else none }

/-- The module loop of `Scan`, threading `misconfigs`. A module whose `Package` is nil
makes `module.Package.Path` panic, which is the `.error` result. -/
def scanModules (eval : String → EvalOutcome) (toLower : String → String)
    (metadata : MetadataMap) (targetPath : String) :
    Modules → List Misconfiguration → Except String (List Misconfiguration)
  | [], misconfigs => .ok misconfigs
  | (_, mod) :: rest, misconfigs =>
    match mod.Package with
    | none => .error "nil pointer dereference"
    | some packagePath =>
      if !hasDataPrefix packagePath then
        scanModules eval toLower metadata targetPath rest misconfigs
      else
        let ns := trimDataPrefix packagePath
        match evaluateModule eval ns with
        | .error _ => scanModules eval toLower metadata targetPath rest misconfigs
        | .ok results =>
          scanModules eval toLower metadata targetPath rest
            (misconfigs ++ results.map fun result =>
              resultToMisconfiguration toLower metadata result ns targetPath)

/-- `Scan(ctx, tfData, targetPath)` over the loader's modules and metadata. -/
def Scan (eval : String → EvalOutcome) (toLower : String → String) (pl : PolicyLoader)
    (targetPath : String) : Except String (List Misconfiguration) :=
  scanModules eval toLower pl.metadata targetPath pl.modules []

/-- The results a predicate family contributes: those of its query, none when the
query evaluation errors. -/
def familyResults (eval : String → EvalOutcome) (ns ruleName : String) : List GoMap :=
  match evaluateRule eval ns ruleName with
  | .ok results => results
  | .error _ => []

/-- Results tagged with `_severity = tag`. -/
def tagged (tag : String) (results : List GoMap) : List GoMap :=
  results.map fun result => mapSet result "_severity" (.str tag)

/-- A rego runtime for one bucket policy: the `deny` query yields a list of two outputs
(their line numbers arrive as `json.Number`), the `violation` query fails, the `warn`
query yields a single output, and every other query is undefined. -/
def bucketEval (query : String) : EvalOutcome :=
  if query = "data.builtin.aws.s3.deny" then
    .ok [[.list [.map [("msg", .str "Bucket is public"), ("resource", .str "aws_s3_bucket.b"),
                       ("startline", .jsonNumber "12"), ("endline", .jsonNumber "14")],
                 .str "ignored",
                 .map [("message", .str "ACL is public-read"),
                       ("startline", .jsonNumber "3"), ("endline", .jsonNumber "3")]]]]
  else if query = "data.builtin.aws.s3.violation" then .error "eval_internal_error"
  else if query = "data.builtin.aws.s3.warn" then
    .ok [[.map [("msg", .str "Versioning is off"), ("_severity", .str "FAIL")]]]
  else .ok []

/-- A loader with one compiled module in package `data.builtin.aws.s3` and its record. -/
def bucketLoader : PolicyLoader :=
  { modules := [("cloud/aws/s3.rego", twoRefsModule)],
    metadata := [("AVD-AWS-0086", twoRefsRecord)] }

/-- A library module in package `data.lib.utils`: it has an id, and neither an
annotation nor the three-component package path gives it a service. -/
def libModule : Module :=
  { Package := some "data.lib.utils",
    Annotations := [⟨"package", [("id", .str "LIB-0001"), ("title", .str "Helpers")]⟩] }

/-- The record `extractMetadata` returns for `libModule`; its `Service` is empty. -/
def libRecord : PolicyMetadata :=
  { ID := "LIB-0001", AVDID := "LIB-0001", Title := "Helpers", Provider := "UTILS",
    Severity := "MEDIUM" }

/-- A metadata map holding the bucket record and the library record. -/
def libCorpus : MetadataMap :=
  [("AVD-AWS-0086", twoRefsRecord), ("LIB-0001", libRecord)]

/-! ## HCL native syntax: what the library returns for a block as written

`processBlock` above takes the results of the two library calls as data. The
definitions below compute those results for a block of a native-syntax file, following
the HCL library (`hclsyntax`). -/

/-- A block as written in a native-syntax file (`hclsyntax.Block` and its body): type,
labels, and the attributes and nested blocks of its body in source order. -/
inductive SyntaxBlock where
  | mk (type : String) (labels : List String) (attrs : List Attribute)
      (blocks : List SyntaxBlock)

/-- Field `Type` of a written block. -/
def SyntaxBlock.type : SyntaxBlock → String
  | .mk type _ _ _ => type

/-- The nested blocks written directly inside a block. -/
def SyntaxBlock.blocks : SyntaxBlock → List SyntaxBlock
  | .mk _ _ _ blocks => blocks

/-- The attributes written directly inside a block. -/
def SyntaxBlock.attrs : SyntaxBlock → List Attribute
  | .mk _ _ attrs _ => attrs

mutual
/-- What `processBlock` receives for a written block. `Body.JustAttributes()` returns
the attributes together with an error diagnostic (blocks are not allowed here) as soon
as the body holds a block. `Body.PartialContent(schema)` returns the blocks whose type
is a block type of the schema, by exact name; the schema of `processBlock` lists the
single type `*`, and the library has no wildcard type. -/
def SyntaxBlock.toBlock : SyntaxBlock → Block
  | .mk type labels attrs blocks =>
    .mk type labels attrs (!blocks.isEmpty) (partialContentStar blocks)
/-- The blocks `PartialContent` returns for the schema with the single block type `*`,
each with what the library returns for its own body. -/
def partialContentStar : List SyntaxBlock → List Block
  | [] => []
  | .mk type labels attrs blocks :: rest =>
    if type = "*" then
      SyntaxBlock.toBlock (.mk type labels attrs blocks) :: partialContentStar rest
    else partialContentStar rest
end

/-- The block `resource "aws_s3_bucket" "b"` with the attribute `acl = "private"` and two
nested `rule` blocks, `rule { id = 1 }` and `rule { id = 2 }`. -/
def bucketBlock : SyntaxBlock :=
  .mk "resource" ["aws_s3_bucket", "b"] [⟨"acl", .ok (.string "private"), ⟨40, 49⟩⟩]
    [.mk "rule" [] [⟨"id", .ok (.number 1), ⟨64, 65⟩⟩] [],
     .mk "rule" [] [⟨"id", .ok (.number 2), ⟨82, 83⟩⟩] []]

/-- A module whose package annotation sets the provider `gcp` and whose later rule
annotation sets the provider to the empty string. -/
def blankedModule : Module :=
  { Package := some "data.builtin.aws.s3",
    Annotations :=
      [⟨"package", [("id", .str "AVD-GCP-0001"), ("provider", .str "gcp")]⟩,
       ⟨"rule", [("provider", .str "")]⟩] }

/-- The record `extractMetadata` returns for `blankedModule`. -/
def blankedRecord : PolicyMetadata :=
  { ID := "AVD-GCP-0001", AVDID := "AVD-GCP-0001", Service := "s3", Provider := "AWS",
    Severity := "MEDIUM" }

/-! ## Properties -/

mutual
theorem Value.beq_iff : ∀ (a b : Value), Value.beq a b = true ↔ a = b
  | .null, b => by cases b <;> simp [Value.beq]
  | .str a, b => by cases b <;> simp [Value.beq]
  | .num a, b => by cases b <;> simp [Value.beq]
  | .bool a, b => by cases b <;> simp [Value.beq]
  | .list a, b => by cases b <;> simp [Value.beq, Value.beqList_iff a]
  | .map a, b => by cases b <;> simp [Value.beq, Value.beqMap_iff a]
  | .jsonNumber a, b => by cases b <;> simp [Value.beq]
theorem Value.beqList_iff : ∀ (a b : List Value), Value.beqList a b = true ↔ a = b
  | [], b => by cases b <;> simp [Value.beqList]
  | a :: as, b => by
    cases b <;> simp [Value.beqList, Value.beq_iff a, Value.beqList_iff as]
theorem Value.beqMap_iff :
    ∀ (a b : List (String × Value)), Value.beqMap a b = true ↔ a = b
  | [], b => by cases b <;> simp [Value.beqMap]
  | (k, a) :: as, b => by
    cases b with
    | nil => simp [Value.beqMap]
    | cons hd tl =>
      obtain ⟨j, b⟩ := hd
      simp [Value.beqMap, Value.beq_iff a, Value.beqMap_iff as, and_assoc]
end

instance : DecidableEq Value := fun a b =>
  decidable_of_iff (Value.beq a b = true) (Value.beq_iff a b)

/-! ### Map reads and writes -/

theorem mapGet_mapSet_same (m : GoMap) (k : String) (v : Value) :
    mapGet (mapSet m k v) k = some v := by
  induction m with
  | nil => simp [mapSet, mapGet]
  | cons hd tl ih =>
    obtain ⟨j, w⟩ := hd
    by_cases h : j = k
    · simp [mapSet, mapGet, h]
    · simp [mapSet, mapGet, h, ih]

theorem mapGet_mapSet_ne (m : GoMap) (k j : String) (v : Value) (h : k ≠ j) :
    mapGet (mapSet m k v) j = mapGet m j := by
  induction m with
  | nil => simp [mapSet, mapGet, h]
  | cons hd tl ih =>
    obtain ⟨i, w⟩ := hd
    by_cases hik : i = k
    · subst hik
      simp [mapSet, mapGet, h]
    · by_cases hij : i = j
      · subst hij
        simp [mapSet, mapGet, hik]
      · simp [mapSet, mapGet, hik, hij, ih]

theorem mapSet_of_mapGet (m : GoMap) (k : String) (v : Value) (h : mapGet m k = some v) :
    mapSet m k v = m := by
  induction m with
  | nil => simp [mapGet] at h
  | cons hd tl ih =>
    obtain ⟨j, w⟩ := hd
    by_cases hjk : j = k
    · simp [mapGet, hjk] at h
      simp [mapSet, hjk, h]
    · simp [mapGet, hjk] at h
      simp [mapSet, hjk, ih h]

theorem mapGet_eq_none_iff (m : GoMap) (k : String) :
    mapGet m k = none ↔ k ∉ mapKeys m := by
  induction m with
  | nil => simp [mapGet, mapKeys]
  | cons hd tl ih =>
    obtain ⟨j, w⟩ := hd
    by_cases hjk : j = k
    · simp [mapGet, mapKeys, hjk]
    · have : ¬ k = j := fun h => hjk h.symm
      simpa [mapGet, mapKeys, hjk, this] using ih

/-! ### `mergeResults` -/

theorem mergeResults_nil (dst : GoMap) : mergeResults dst [] = dst := by
  simp [mergeResults]

theorem mergeResults_cons (dst : GoMap) (key : String) (srcVal : Value) (rest : GoMap) :
    mergeResults dst ((key, srcVal) :: rest) =
      mergeResults (mapSet dst key (mergeVal (mapGet dst key) srcVal)) rest := by
  simp [mergeResults, mergeEntry]

/-- The loop body of `mergeResults` as written in the source: recurse when both sides
hold a map, assign `srcVal` otherwise. -/
theorem mergeVal_eq (dstVal : Option Value) (srcVal : Value) :
    mergeVal dstVal srcVal =
      match dstVal, srcVal with
      | some (.map dstMap), .map srcMap => .map (mergeResults dstMap srcMap)
      | _, _ => srcVal := by
  cases srcVal <;> cases dstVal <;> simp [mergeVal]
  rename_i kvs v
  cases v <;> simp

/-- Pointwise description of a merge, for a source with unique keys. -/
theorem mapGet_mergeResults (src : GoMap) :
    ∀ (dst : GoMap), (mapKeys src).Nodup → ∀ (k : String),
      mapGet (mergeResults dst src) k =
        match mapGet src k with
        | some srcVal => some (mergeVal (mapGet dst k) srcVal)
        | none => mapGet dst k := by
  induction src with
  | nil => intro dst _ k; simp [mergeResults, mapGet]
  | cons hd tl ih =>
    obtain ⟨key, srcVal⟩ := hd
    intro dst hnd k
    have hnd2 : key ∉ mapKeys tl ∧ (mapKeys tl).Nodup := by
      simpa [mapKeys] using hnd
    rw [mergeResults_cons, ih _ hnd2.2 k]
    by_cases hk : key = k
    · subst hk
      have hnone : mapGet tl key = none := (mapGet_eq_none_iff tl key).2 hnd2.1
      simp [hnone, mapGet, mapGet_mapSet_same]
    · simp [mapGet, hk, mapGet_mapSet_ne _ _ _ _ hk]

theorem mapKeys_nodup_of_wfMap (m : GoMap) (h : wfMap m = true) : (mapKeys m).Nodup := by
  induction m with
  | nil => simp [mapKeys]
  | cons hd tl ih =>
    obtain ⟨k, v⟩ := hd
    simp only [wfMap, Bool.and_eq_true, Option.isNone_iff_eq_none] at h
    have hk : k ∉ mapKeys tl := (mapGet_eq_none_iff tl k).1 h.1.1
    have := ih h.2
    simp only [mapKeys, List.map_cons, List.nodup_cons]
    exact ⟨hk, this⟩

theorem mapSet_of_mapGet_none (m : GoMap) (k : String) (v : Value)
    (h : mapGet m k = none) : mapSet m k v = m ++ [(k, v)] := by
  induction m with
  | nil => simp [mapSet]
  | cons hd tl ih =>
    obtain ⟨j, w⟩ := hd
    by_cases hjk : j = k
    · simp [mapGet, hjk] at h
    · simp [mapGet, hjk] at h
      simp [mapSet, hjk, ih h]

theorem mapGet_append_singleton_ne (m : GoMap) (k j : String) (v : Value) (h : k ≠ j) :
    mapGet (m ++ [(k, v)]) j = mapGet m j := by
  induction m with
  | nil => simp [mapGet, h]
  | cons hd tl ih =>
    obtain ⟨i, w⟩ := hd
    by_cases hij : i = j
    · simp [mapGet, hij]
    · simp [mapGet, hij, ih]

theorem mergeVal_none (v : Value) : mergeVal none v = v := by
  cases v <;> simp [mergeVal]

/-- Merging a source with unique keys into a map that binds none of them appends the
source bindings unchanged. -/
theorem mergeResults_disjoint (src : GoMap) :
    ∀ (dst : GoMap), (mapKeys src).Nodup → (∀ k ∈ mapKeys src, mapGet dst k = none) →
      mergeResults dst src = dst ++ src := by
  induction src with
  | nil => intro dst _ _; simp [mergeResults]
  | cons hd tl ih =>
    obtain ⟨key, srcVal⟩ := hd
    intro dst hnd habs
    have hnd2 : key ∉ mapKeys tl ∧ (mapKeys tl).Nodup := by
      simpa [mapKeys] using hnd
    have hkey : mapGet dst key = none := habs key (by simp [mapKeys])
    rw [mergeResults_cons, hkey, mergeVal_none, mapSet_of_mapGet_none _ _ _ hkey,
      ih _ hnd2.2]
    · simp
    · intro k hk
      have hne : key ≠ k := fun h => hnd2.1 (h ▸ hk)
      rw [mapGet_append_singleton_ne _ _ _ _ hne]
      exact habs k (by simp only [mapKeys, List.map_cons, List.mem_cons]; exact Or.inr hk)

theorem mergeResults_empty_left (src : GoMap) (h : (mapKeys src).Nodup) :
    mergeResults [] src = src := by
  rw [mergeResults_disjoint src [] h (fun k _ => by simp [mapGet])]
  simp

mutual
/-- Storing `src[key]` a second time over the value a first merge stored changes nothing. -/
theorem mergeVal_idem : ∀ (v : Value), Value.wf v = true → ∀ (d : Option Value),
    mergeVal (some (mergeVal d v)) v = mergeVal d v
  | .null, _, d => by simp [mergeVal]
  | .str _, _, d => by simp [mergeVal]
  | .num _, _, d => by simp [mergeVal]
  | .bool _, _, d => by simp [mergeVal]
  | .list _, _, d => by simp [mergeVal]
  | .jsonNumber _, _, d => by simp [mergeVal]
  | .map sm, h, d => by
    have hwf : wfMap sm = true := by simpa [Value.wf] using h
    have hself : mergeResults sm sm = sm := by
      have h0 := mergeResults_empty_left sm (mapKeys_nodup_of_wfMap sm hwf)
      have h1 := mergeResults_idem sm hwf []
      rw [h0] at h1
      exact h1
    cases d with
    | none => simp [mergeVal, hself]
    | some dv =>
      cases dv <;> simp [mergeVal, hself]
      exact mergeResults_idem sm hwf _
/-- Merging the same well-formed source twice equals merging it once. -/
theorem mergeResults_idem : ∀ (B : GoMap), wfMap B = true → ∀ (A : GoMap),
    mergeResults (mergeResults A B) B = mergeResults A B
  | [], _, A => by simp [mergeResults]
  | (k, v) :: rest, h, A => by
    simp only [wfMap, Bool.and_eq_true, Option.isNone_iff_eq_none] at h
    obtain ⟨⟨hk, hv⟩, hrest⟩ := h
    have hnd := mapKeys_nodup_of_wfMap rest hrest
    rw [mergeResults_cons A]
    generalize hA : mapSet A k (mergeVal (mapGet A k) v) = A1
    have hD : mapGet (mergeResults A1 rest) k = some (mergeVal (mapGet A k) v) := by
      rw [mapGet_mergeResults rest A1 hnd k, hk, ← hA]
      simp [mapGet_mapSet_same]
    rw [mergeResults_cons, hD, mergeVal_idem v hv, mapSet_of_mapGet _ _ _ hD]
    exact mergeResults_idem rest hrest A1
end

/-- C1: `mergeResults(dst, src)` computes the deep merge. For a source map `src` (unique
keys), after the call: (1) a key whose values in `dst` and `src` are both maps holds the
recursive merge of the two; (2) every other key of `src` holds exactly `src[k]`; (3) a key
that `src` does not bind keeps what `dst` held (bound or not). -/
theorem mergeResults_deep_merge (dst src : GoMap) (hsrc : (mapKeys src).Nodup) :
    (∀ k dstMap srcMap, mapGet dst k = some (.map dstMap) →
        mapGet src k = some (.map srcMap) →
        mapGet (mergeResults dst src) k = some (.map (mergeResults dstMap srcMap))) ∧
    (∀ k srcVal, mapGet src k = some srcVal →
        (¬ ∃ dstMap srcMap, mapGet dst k = some (.map dstMap) ∧ srcVal = .map srcMap) →
        mapGet (mergeResults dst src) k = some srcVal) ∧
    (∀ k, mapGet src k = none → mapGet (mergeResults dst src) k = mapGet dst k) := by
  refine ⟨?_, ?_, ?_⟩
  · intro k dstMap srcMap hd hs
    rw [mapGet_mergeResults src dst hsrc k, hs, hd]
    simp [mergeVal]
  · intro k srcVal hs hno
    rw [mapGet_mergeResults src dst hsrc k, hs]
    cases srcVal with
    | map srcMap =>
      cases hd : mapGet dst k with
      | none => simp [mergeVal]
      | some dv =>
        cases dv with
        | map dstMap => exact absurd ⟨dstMap, srcMap, hd, rfl⟩ hno
        | _ => simp [mergeVal]
    | _ => simp [mergeVal]
  · intro k hs
    rw [mapGet_mergeResults src dst hsrc k, hs]

/-- C1 at a concrete pair of trees: a shared map key, an overwritten list, a scalar
replacing a map, a new key and an untouched key. -/
theorem mergeResults_deep_merge_witness :
    (mapKeys [("a", Value.map [("y", .str "s")]), ("l", .list [.num 2]),
        ("m", .bool true), ("n", .null)]).Nodup ∧
    mergeResults
        [("a", .map [("x", .null)]), ("l", .list [.num 1]), ("m", .map []), ("z", .str "keep")]
        [("a", .map [("y", .str "s")]), ("l", .list [.num 2]), ("m", .bool true), ("n", .null)]
      = [("a", .map [("x", .null), ("y", .str "s")]), ("l", .list [.num 2]),
          ("m", .bool true), ("z", .str "keep"), ("n", .null)] ∧
    mapGet (mergeResults
        [("a", .map [("x", .null)]), ("l", .list [.num 1]), ("m", .map []), ("z", .str "keep")]
        [("a", .map [("y", .str "s")]), ("l", .list [.num 2]), ("m", .bool true), ("n", .null)])
      "z" = some (.str "keep") :=
  ⟨by decide, by decide,
    ((mergeResults_deep_merge
      [("a", .map [("x", .null)]), ("l", .list [.num 1]), ("m", .map []), ("z", .str "keep")]
      [("a", .map [("y", .str "s")]), ("l", .list [.num 2]), ("m", .bool true), ("n", .null)]
      (by decide)).2.2 "z" (by decide)).trans (by decide)⟩

/-- C2: merge idempotence. For every tree `A` and every source map `B` (unique keys at
every level) that contains no list-valued key, merging `B` into the result of merging `B`
into `A` gives the result of the first merge. -/
theorem mergeResults_idempotent (A B : GoMap) (hwf : wfMap B = true)
    (_hB : noListsMap B = true) :
    mergeResults (mergeResults A B) B = mergeResults A B :=
  mergeResults_idem B hwf A

/-- C2 at a concrete pair of trees with nested maps. -/
theorem mergeResults_idempotent_witness :
    wfMap [("r", Value.map [("t", .map [("n", .str "b")])]), ("v", .num 1)] = true ∧
    noListsMap [("r", Value.map [("t", .map [("n", .str "b")])]), ("v", .num 1)] = true ∧
    mergeResults
        (mergeResults [("r", .map [("t", .map [("m", .list [])])]), ("v", .list [])]
          [("r", .map [("t", .map [("n", .str "b")])]), ("v", .num 1)])
        [("r", .map [("t", .map [("n", .str "b")])]), ("v", .num 1)]
      = mergeResults [("r", .map [("t", .map [("m", .list [])])]), ("v", .list [])]
          [("r", .map [("t", .map [("n", .str "b")])]), ("v", .num 1)] :=
  ⟨by decide, by decide,
    mergeResults_idempotent [("r", .map [("t", .map [("m", .list [])])]), ("v", .list [])]
      [("r", .map [("t", .map [("n", .str "b")])]), ("v", .num 1)] (by decide) (by decide)⟩

/-! ### `ParseDirectory` -/

theorem parseEntries_two (parseFile : String → Except String GoMap) (n1 n2 : String)
    (F1 F2 : GoMap)
    (hn1 : (HasSuffix n1 ".tf" || HasSuffix n1 ".tf.json") = true)
    (hn2 : (HasSuffix n2 ".tf" || HasSuffix n2 ".tf.json") = true)
    (hp1 : parseFile n1 = .ok F1) (hp2 : parseFile n2 = .ok F2) :
    parseEntries parseFile [⟨n1, false⟩, ⟨n2, false⟩] [] =
      mergeResults (mergeResults [] F1) F2 := by
  simp [parseEntries, hn1, hn2, hp1, hp2]

/-- C3, as stated, fails: with `a.tf` and `b.tf` both declaring `variable "region"`, the
merged `variable.region` keeps the `description` attribute of the first file, so it is
not equal to the second file's definition. -/
theorem ParseDirectory_region_keeps_first_file_attribute :
    ∃ merged,
      ParseDirectory regionParseFile "infra" (.ok [⟨"a.tf", false⟩, ⟨"b.tf", false⟩]) = .ok merged ∧
      variableRegion regionFileA =
        some (.map [("default", .str "us-east-1"), ("description", .str "AWS region")]) ∧
      variableRegion regionFileB = some (.map [("default", .str "eu-west-1")]) ∧
      variableRegion merged =
        some (.map [("default", .str "eu-west-1"), ("description", .str "AWS region")]) ∧
      variableRegion merged ≠ variableRegion regionFileB :=
  ⟨_, rfl, by decide, by decide, by decide, by decide⟩

/-- C3, amended: when two files each declare `variable "region"`, `ParseDirectory` on
the first then the second returns a tree whose `variable.region` is the deep merge
(`mergeResults`) of the first file's body with the second file's body. -/
theorem ParseDirectory_region_deep_merge (parseFile : String → Except String GoMap)
    (dir n1 n2 : String) (F1 F2 b1 b2 : GoMap)
    (hn1 : (HasSuffix n1 ".tf" || HasSuffix n1 ".tf.json") = true)
    (hn2 : (HasSuffix n2 ".tf" || HasSuffix n2 ".tf.json") = true)
    (hp1 : parseFile n1 = .ok F1) (hp2 : parseFile n2 = .ok F2)
    (hwf1 : wfMap F1 = true) (hwf2 : wfMap F2 = true)
    (h1 : variableRegion F1 = some (.map b1)) (h2 : variableRegion F2 = some (.map b2)) :
    ∃ merged,
      ParseDirectory parseFile dir (.ok [⟨n1, false⟩, ⟨n2, false⟩]) = .ok merged ∧
      variableRegion merged = some (.map (mergeResults b1 b2)) := by
  have hnd1 := mapKeys_nodup_of_wfMap F1 hwf1
  have hnd2 := mapKeys_nodup_of_wfMap F2 hwf2
  -- the two `variable` maps
  obtain ⟨v1, hv1, hr1⟩ : ∃ v1, mapGet F1 "variable" = some (.map v1) ∧
      mapGet v1 "region" = some (.map b1) := by
    unfold variableRegion at h1
    split at h1
    · rename_i vars hv; exact ⟨vars, hv, h1⟩
    · simp at h1
  obtain ⟨v2, hv2, hr2⟩ : ∃ v2, mapGet F2 "variable" = some (.map v2) ∧
      mapGet v2 "region" = some (.map b2) := by
    unfold variableRegion at h2
    split at h2
    · rename_i vars hv; exact ⟨vars, hv, h2⟩
    · simp at h2
  have hwfv2 : wfMap v2 = true := by
    have hall : ∀ (m : GoMap), wfMap m = true → ∀ k v, mapGet m k = some v →
        Value.wf v = true := by
      intro m
      induction m with
      | nil => intro _ k v h; simp [mapGet] at h
      | cons hd tl ih =>
        obtain ⟨j, w⟩ := hd
        intro hw k v h
        simp only [wfMap, Bool.and_eq_true] at hw
        by_cases hjk : j = k
        · simp [mapGet, hjk] at h
          rw [← h]; exact hw.1.2
        · simp [mapGet, hjk] at h
          exact ih hw.2 k v h
    simpa [Value.wf] using hall F2 hwf2 _ _ hv2
  have hndv2 := mapKeys_nodup_of_wfMap v2 hwfv2
  have hm : parseEntries parseFile [⟨n1, false⟩, ⟨n2, false⟩] [] = mergeResults F1 F2 := by
    rw [parseEntries_two parseFile n1 n2 F1 F2 hn1 hn2 hp1 hp2,
      mergeResults_empty_left F1 hnd1]
  have hvar : mapGet (mergeResults F1 F2) "variable" = some (.map (mergeResults v1 v2)) := by
    rw [mapGet_mergeResults F2 F1 hnd2, hv2, hv1]
    simp [mergeVal]
  have hreg : mapGet (mergeResults v1 v2) "region" = some (.map (mergeResults b1 b2)) := by
    rw [mapGet_mergeResults v2 v1 hndv2, hr2, hr1]
    simp [mergeVal]
  refine ⟨mergeResults F1 F2, ?_, ?_⟩
  · have hne : (mergeResults F1 F2).length ≠ 0 := by
      intro h0
      have : mergeResults F1 F2 = [] := List.length_eq_zero.mp h0
      rw [this] at hvar
      simp [mapGet] at hvar
    simp [ParseDirectory, hm, hne]
  · simp [variableRegion, hvar, hreg]

/-- C3 amended, at the two concrete files `a.tf` and `b.tf`. -/
theorem ParseDirectory_region_deep_merge_witness :
    ∃ merged,
      ParseDirectory regionParseFile "infra" (.ok [⟨"a.tf", false⟩, ⟨"b.tf", false⟩]) = .ok merged ∧
      variableRegion merged =
        some (.map (mergeResults
          [("default", .str "us-east-1"), ("description", .str "AWS region")]
          [("default", .str "eu-west-1")])) :=
  ParseDirectory_region_deep_merge regionParseFile "infra" "a.tf" "b.tf" regionFileA regionFileB
    [("default", .str "us-east-1"), ("description", .str "AWS region")]
    [("default", .str "eu-west-1")]
    (by decide) (by decide) rfl rfl (by decide) (by decide) (by decide) (by decide)

/-! ### `processBlock`: nested blocks -/

theorem processBlock_eq (round64 : ℚ → ℚ) (block : Block) :
    processBlock round64 block =
      processNested round64 block.blocks
        (processAttrs round64 block.attrs block.attrsHasErrors) := by
  cases block
  simp [processBlock, Block.blocks, Block.attrs, Block.attrsHasErrors]

theorem processNested_cons (round64 : ℚ → ℚ) (nb : Block) (rest : List Block)
    (result : GoMap) :
    processNested round64 (nb :: rest) result =
      processNested round64 rest
        (collectNested result nb.type (processBlock round64 nb)) := by
  cases nb
  simp [processNested, Block.type]

theorem mapGet_collectNested_ne (result : GoMap) (type T : String) (d : GoMap)
    (h : type ≠ T) : mapGet (collectNested result type d) T = mapGet result T := by
  unfold collectNested
  split
  · split <;> exact mapGet_mapSet_ne _ _ _ _ h
  · exact mapGet_mapSet_ne _ _ _ _ h

theorem mapGet_collectNested_none (result : GoMap) (T : String) (d : GoMap)
    (h : mapGet result T = none) :
    mapGet (collectNested result T d) T = some (.map d) := by
  simp [collectNested, h, mapGet_mapSet_same]

theorem mapGet_collectNested_list (result : GoMap) (T : String) (d : GoMap)
    (arr : List Value) (h : mapGet result T = some (.list arr)) :
    mapGet (collectNested result T d) T = some (.list (arr ++ [.map d])) := by
  simp [collectNested, h, mapGet_mapSet_same]

theorem mapGet_collectNested_map (result : GoMap) (T : String) (d e : GoMap)
    (h : mapGet result T = some (.map e)) :
    mapGet (collectNested result T d) T = some (.list [.map e, .map d]) := by
  simp [collectNested, h, mapGet_mapSet_same]

/-- Once the key holds a list, each further block of type `T` is appended. -/
theorem processNested_from_list (round64 : ℚ → ℚ) (T : String) (bs : List Block) :
    ∀ (result : GoMap) (arr : List Value), mapGet result T = some (.list arr) →
      mapGet (processNested round64 bs result) T =
        some (.list (arr ++ (bs.filter fun nb => nb.type = T).map
          fun nb => .map (processBlock round64 nb))) := by
  induction bs with
  | nil => intro result arr h; simp [processNested, h]
  | cons nb rest ih =>
    intro result arr h
    rw [processNested_cons]
    by_cases hT : nb.type = T
    · subst hT
      rw [ih _ _ (mapGet_collectNested_list result _ _ arr h)]
      simp [List.filter]
    · rw [ih _ arr ((mapGet_collectNested_ne result nb.type T _ hT).trans h)]
      simp [List.filter, hT]

/-- While the key holds the body of a single block, the next block of type `T` turns it
into a two-element list. -/
theorem processNested_from_map (round64 : ℚ → ℚ) (T : String) (bs : List Block) :
    ∀ (result : GoMap) (e : GoMap), mapGet result T = some (.map e) →
      mapGet (processNested round64 bs result) T =
        match (bs.filter fun nb => nb.type = T).map
            fun nb => Value.map (processBlock round64 nb) with
        | [] => some (.map e)
        | b :: more => some (.list (.map e :: b :: more)) := by
  induction bs with
  | nil => intro result e h; simp [processNested, h]
  | cons nb rest ih =>
    intro result e h
    rw [processNested_cons]
    by_cases hT : nb.type = T
    · subst hT
      rw [processNested_from_list round64 _ rest _ _
        (mapGet_collectNested_map result _ _ e h)]
      simp [List.filter]
    · rw [ih _ e ((mapGet_collectNested_ne result nb.type T _ hT).trans h)]
      simp [List.filter, hT]

/-- Starting from a result that does not bind `T`. -/
theorem processNested_from_none (round64 : ℚ → ℚ) (T : String) (bs : List Block) :
    ∀ (result : GoMap), mapGet result T = none →
      mapGet (processNested round64 bs result) T =
        match (bs.filter fun nb => nb.type = T).map
            fun nb => Value.map (processBlock round64 nb) with
        | [] => none
        | [b] => some b
        | b :: c :: more => some (.list (b :: c :: more)) := by
  induction bs with
  | nil => intro result h; simp [processNested, h]
  | cons nb rest ih =>
    intro result h
    rw [processNested_cons]
    by_cases hT : nb.type = T
    · subst hT
      rw [processNested_from_map round64 _ rest _ _
        (mapGet_collectNested_none result _ _ h)]
      simp only [List.filter, decide_True, List.map_cons]
      cases (List.filter (fun b => decide (b.type = nb.type)) rest).map
          fun nb => Value.map (processBlock round64 nb) <;> rfl
    · rw [ih _ ((mapGet_collectNested_ne result nb.type T _ hT).trans h)]
      simp [List.filter, hT]

theorem mapGet_processAttr_ne (round64 : ℚ → ℚ) (result : GoMap) (attr : Attribute)
    (T : String) (h : attr.name ≠ T) :
    mapGet (processAttr round64 result attr) T = mapGet result T := by
  unfold processAttr
  split <;> exact mapGet_mapSet_ne _ _ _ _ h

theorem mapGet_processAttrs_none (round64 : ℚ → ℚ) (attrs : List Attribute)
    (hasErrors : Bool) (T : String) (h : ∀ a ∈ attrs, a.name ≠ T) :
    mapGet (processAttrs round64 attrs hasErrors) T = none := by
  have key : ∀ (l : List Attribute) (result : GoMap), (∀ a ∈ l, a.name ≠ T) →
      mapGet (l.foldl (processAttr round64) result) T = mapGet result T := by
    intro l
    induction l with
    | nil => intro result _; rfl
    | cons a rest ih =>
      intro result hl
      rw [List.foldl_cons, ih _ (fun b hb => hl b (List.mem_cons_of_mem _ hb)),
        mapGet_processAttr_ne round64 result a T (hl a (List.mem_cons_self _ _))]
  unfold processAttrs
  split
  · rw [key attrs [] h]; rfl
  · rfl

/-- The nested-block loop on the blocks that `PartialContent` returns: for a type `T`
that names no attribute of the block, with `occ` the returned blocks of type `T` in
order, a single block leaves its body map under key `T`, two or more leave the list of
their body maps in the same order. -/
theorem processBlock_collects_nested (round64 : ℚ → ℚ) (block : Block) (T : String)
    (hT : ∀ a ∈ block.attrs, a.name ≠ T) :
    (∀ nb, (block.blocks.filter fun b => b.type = T) = [nb] →
      mapGet (processBlock round64 block) T = some (.map (processBlock round64 nb))) ∧
    (2 ≤ (block.blocks.filter fun b => b.type = T).length →
      mapGet (processBlock round64 block) T =
        some (.list ((block.blocks.filter fun b => b.type = T).map
          fun nb => .map (processBlock round64 nb)))) := by
  have hnone := mapGet_processAttrs_none round64 block.attrs block.attrsHasErrors T hT
  have hmain := processNested_from_none round64 T block.blocks _ hnone
  rw [← processBlock_eq] at hmain
  constructor
  · intro nb hocc
    rw [hmain, hocc]
    rfl
  · intro hlen
    rw [hmain]
    generalize (block.blocks.filter fun b => b.type = T) = occ at hlen
    match occ, hlen with
    | a :: b :: more, _ => rfl

/-! ### `processBlock`: attributes that cannot be evaluated -/

/-- Slicing the empty byte slice gives the empty slice, whatever the range. -/
theorem SliceBytes_nil (r : Range) : r.SliceBytes [] = [] := by
  simp [Range.SliceBytes, sliceBytes]

/-- The text `processBlock` stores for an attribute that fails to evaluate is the slice
of an empty byte slice: the empty string, for every range and every source file. -/
theorem processAttr_eval_error (round64 : ℚ → ℚ) (result : GoMap) (attr : Attribute)
    (e : String) (h : attr.value = .error e) :
    processAttr round64 result attr = mapSet result attr.name (.str "") := by
  simp [processAttr, evalAttribute, h, SliceBytes_nil, bytesToString]

/-- C5 (the code departs from the claim): in `locals { a = var.b }` the expression `var.b`
at bytes 13 to 18 cannot be evaluated; its source text is `var.b`, but `processBlock`
stores the empty string under `a`. -/
theorem processBlock_eval_error_stores_empty :
    rawSourceText (stringToBytes "locals { a = var.b }") ⟨13, 18⟩ = "var.b" ∧
    evalAttribute id ⟨"a", .error "Variables not allowed", ⟨13, 18⟩⟩
      = .error "evaluation error: Variables not allowed" ∧
    processBlock id
        (.mk "locals" [] [⟨"a", .error "Variables not allowed", ⟨13, 18⟩⟩] false [])
      = [("a", .str "")] :=
  ⟨by decide, rfl, by decide⟩

/-! ### `ctyToGo` -/

theorem ctyToGoElems_eq (round64 : ℚ → ℚ) (elems : List Cty) :
    ∀ (result : List Value),
      ctyToGoElems round64 elems result = result ++ elems.map (ctyToGo round64) := by
  induction elems with
  | nil => intro result; simp [ctyToGoElems]
  | cons v rest ih => intro result; simp [ctyToGoElems, ih]

theorem ctyToGoPairs_eq (round64 : ℚ → ℚ) (elems : List (String × Cty)) :
    ∀ (result : GoMap), (elems.map Prod.fst).Nodup →
      (∀ k ∈ elems.map Prod.fst, mapGet result k = none) →
      ctyToGoPairs round64 elems result =
        result ++ elems.map fun kv => (kv.1, ctyToGo round64 kv.2) := by
  induction elems with
  | nil => intro result _ _; simp [ctyToGoPairs]
  | cons hd tl ih =>
    obtain ⟨key, v⟩ := hd
    intro result hnd habs
    have hnd2 : key ∉ tl.map Prod.fst ∧ (tl.map Prod.fst).Nodup := by
      simpa using hnd
    have hkey : mapGet result key = none := habs key (by simp)
    simp only [ctyToGoPairs]
    rw [mapSet_of_mapGet_none _ _ _ hkey, ih _ hnd2.2]
    · simp
    · intro k hk
      have hne : key ≠ k := fun h => hnd2.1 (h ▸ hk)
      rw [mapGet_append_singleton_ne _ _ _ _ hne]
      exact habs k (by simp only [List.map_cons, List.mem_cons]; exact Or.inr hk)

theorem mapGet_map_ctyToGo (round64 : ℚ → ℚ) (elems : List (String × Cty)) (k : String) :
    mapGet (elems.map fun kv => (kv.1, ctyToGo round64 kv.2)) k =
      (ctyGet elems k).map (ctyToGo round64) := by
  induction elems with
  | nil => simp [mapGet, ctyGet]
  | cons hd tl ih =>
    obtain ⟨j, v⟩ := hd
    by_cases hjk : j = k
    · simp [mapGet, ctyGet, hjk]
    · simp [mapGet, ctyGet, hjk, ih]

/-- C6: coercion preserves shape. A list, set or tuple value is returned as the list
of the coerced elements, in iteration order (so with the same number of elements). A map
or object value (distinct keys) is returned as a map with the same keys, each bound to
the coercion of the source value under that key. -/
theorem ctyToGo_preserves_shape (round64 : ℚ → ℚ) :
    (∀ elems : List Cty,
      ctyToGo round64 (.list elems) = .list (elems.map (ctyToGo round64)) ∧
      ctyToGo round64 (.set elems) = .list (elems.map (ctyToGo round64)) ∧
      ctyToGo round64 (.tuple elems) = .list (elems.map (ctyToGo round64)) ∧
      (elems.map (ctyToGo round64)).length = elems.length ∧
      ∀ i : Nat, (elems.map (ctyToGo round64))[i]? = elems[i]?.map (ctyToGo round64)) ∧
    (∀ elems : List (String × Cty), (elems.map Prod.fst).Nodup →
      ∃ m : GoMap,
        ctyToGo round64 (.map elems) = .map m ∧
        ctyToGo round64 (.object elems) = .map m ∧
        mapKeys m = elems.map Prod.fst ∧
        ∀ k, mapGet m k = (ctyGet elems k).map (ctyToGo round64)) := by
  constructor
  · intro elems
    refine ⟨?_, ?_, ?_, ?_, ?_⟩
    · simp [ctyToGo, ctyToGoElems_eq]
    · simp [ctyToGo, ctyToGoElems_eq]
    · simp [ctyToGo, ctyToGoElems_eq]
    · simp
    · intro i; simp
  · intro elems hnd
    have hp := ctyToGoPairs_eq round64 elems [] hnd (fun k _ => by simp [mapGet])
    refine ⟨elems.map fun kv => (kv.1, ctyToGo round64 kv.2), ?_, ?_, ?_, ?_⟩
    · simp [ctyToGo, hp]
    · simp [ctyToGo, hp]
    · simp [mapKeys, List.map_map, Function.comp_def]
    · exact mapGet_map_ctyToGo round64 elems

/-- C6 on an object holding a tuple of mixed scalars. -/
theorem ctyToGo_preserves_shape_witness :
    ∃ m : GoMap,
      ctyToGo id (.object [("b", .tuple [.number 1, .string "x", .null, .bool true]),
        ("a", .number 2)]) = .map m ∧
      mapKeys m = ["b", "a"] ∧
      mapGet m "b" = some (.list [.num 1, .str "x", .null, .bool true]) ∧
      mapGet m "a" = some (.num 2) :=
  match (ctyToGo_preserves_shape id).2
    [("b", .tuple [.number 1, .string "x", .null, .bool true]), ("a", .number 2)]
    (by decide) with
  | ⟨m, _, hobj, hkeys, hget⟩ =>
    ⟨m, hobj, hkeys, (hget "b").trans (by decide), (hget "a").trans (by decide)⟩

/-! ### `compilePolicies`: eviction and termination -/

theorem deleteModules_eq (files : List String) :
    ∀ (modules : Modules),
      deleteModules modules files = modules.filter fun pm => decide (pm.1 ∉ files) := by
  induction files with
  | nil => intro modules; simp [deleteModules]
  | cons f rest ih =>
    intro modules
    have h := ih (modules.filter fun pm => pm.1 ≠ f)
    simp only [deleteModules, List.foldl_cons] at h ⊢
    rw [h, List.filter_filter]
    apply List.filter_congr
    intro pm _
    by_cases h1 : pm.1 = f <;> by_cases h2 : pm.1 ∈ rest <;> simp [h1, h2]

theorem mem_failedFiles (errors : List CompileError) (f : String) :
    f ∈ failedFiles errors ↔
      f ≠ "" ∧ ∃ e ∈ errors, e.Location = some ⟨f⟩ := by
  simp only [failedFiles, List.mem_filterMap]
  constructor
  · rintro ⟨e, he, hf⟩
    cases hloc : e.Location with
    | none => simp [hloc] at hf
    | some loc =>
      simp only [hloc] at hf
      by_cases hfile : loc.File = ""
      · simp [hfile] at hf
      · simp only [ne_eq, hfile, not_false_eq_true, ↓reduceIte, Option.some.injEq] at hf
        subst hf
        exact ⟨hfile, e, he, hloc⟩
  · rintro ⟨hne, e, he, hloc⟩
    exact ⟨e, he, by simp [hloc, hne]⟩

/-- One invocation of `compilePolicies`, written over the evicted module set. -/
theorem compilePolicies_succ (compile : Modules → List CompileError)
    (toUpper : String → String) (fuel : Nat) (pl : PolicyLoader) :
    compilePolicies compile toUpper (fuel + 1) pl =
      if (compile pl.modules).length > 0 then
        if (deleteModules pl.modules (failedFiles (compile pl.modules))).length = 0 then
          some (⟨deleteModules pl.modules (failedFiles (compile pl.modules)), pl.metadata⟩,
            some "no policies compiled successfully")
        else if (compile (deleteModules pl.modules
            (failedFiles (compile pl.modules)))).length > 0 then
          compilePolicies compile toUpper fuel
            ⟨deleteModules pl.modules (failedFiles (compile pl.modules)), pl.metadata⟩
        else
          some (⟨deleteModules pl.modules (failedFiles (compile pl.modules)),
            rebuildMetadata toUpper
              (deleteModules pl.modules (failedFiles (compile pl.modules)))⟩, none)
      else some (⟨pl.modules, rebuildMetadata toUpper pl.modules⟩, none) := by
  rw [compilePolicies]

/-- One more invocation allowed never changes a result already reached. -/
theorem compilePolicies_fuel_succ (compile : Modules → List CompileError)
    (toUpper : String → String) (fuel : Nat) :
    ∀ (pl : PolicyLoader) (r : PolicyLoader × Option String),
      compilePolicies compile toUpper fuel pl = some r →
      compilePolicies compile toUpper (fuel + 1) pl = some r := by
  induction fuel with
  | zero => intro pl r h; simp [compilePolicies] at h
  | succ n ih =>
    intro pl r h
    rw [compilePolicies_succ] at h ⊢
    by_cases hE : (compile pl.modules).length > 0
    · simp only [hE, ↓reduceIte] at h ⊢
      by_cases h0 : (deleteModules pl.modules (failedFiles (compile pl.modules))).length = 0
      · simpa only [h0, ↓reduceIte] using h
      · simp only [h0, ↓reduceIte] at h ⊢
        by_cases hE2 : (compile (deleteModules pl.modules
            (failedFiles (compile pl.modules)))).length > 0
        · simp only [hE2, ↓reduceIte] at h ⊢
          exact ih _ _ h
        · simpa only [hE2, ↓reduceIte] using h
    · simpa only [hE, ↓reduceIte] using h

theorem compilePolicies_fuel_mono (compile : Modules → List CompileError)
    (toUpper : String → String) (fuel fuel2 : Nat) (hle : fuel ≤ fuel2)
    (pl : PolicyLoader) (r : PolicyLoader × Option String)
    (h : compilePolicies compile toUpper fuel pl = some r) :
    compilePolicies compile toUpper fuel2 pl = some r := by
  induction hle with
  | refl => exact h
  | step _ ih => exact compilePolicies_fuel_succ compile toUpper _ pl r ih

/-- C7 (the code departs from the claim): when the compile step reports an error that
carries no location, the eviction loop removes nothing, the retry runs on the same
module set, and `compilePolicies` returns after no number of invocations. -/
theorem compilePolicies_unlocated_error_never_returns :
    deleteModules [("cloud/s3.rego", sampleModule "AVD-AWS-0001")]
        (failedFiles (compileUnlocated [("cloud/s3.rego", sampleModule "AVD-AWS-0001")]))
      = [("cloud/s3.rego", sampleModule "AVD-AWS-0001")] ∧
    ∀ fuel : Nat,
      compilePolicies compileUnlocated id fuel
        ⟨[("cloud/s3.rego", sampleModule "AVD-AWS-0001")], []⟩ = none := by
  refine ⟨rfl, ?_⟩
  intro fuel
  induction fuel with
  | zero => rfl
  | succ n ih =>
    rw [compilePolicies_succ]
    simpa [compileUnlocated, failedFiles, deleteModules] using ih

/-- One eviction round when some reported error is located in a present module: the
module set gets strictly smaller. -/
theorem evict_present_step (compile : Modules → List CompileError) (S : Modules)
    (hpaths : ∀ pm ∈ S, pm.1 ≠ "")
    (hex : ∃ e ∈ compile S, ∃ loc, e.Location = some loc ∧ loc.File ∈ S.map Prod.fst) :
    (deleteModules S (failedFiles (compile S))).Sublist S ∧
    (deleteModules S (failedFiles (compile S))).length < S.length := by
  rw [deleteModules_eq]
  refine ⟨List.filter_sublist _, ?_⟩
  rw [List.length_filter_lt_length_iff_exists]
  obtain ⟨e, he, loc, hl, hpres⟩ := hex
  obtain ⟨pm, hpm, hfile⟩ := List.mem_map.1 hpres
  have hne : loc.File ≠ "" := hfile ▸ hpaths pm hpm
  have hmem : loc.File ∈ failedFiles (compile S) := (mem_failedFiles _ _).2 ⟨hne, e, he, hl⟩
  exact ⟨pm, hpm, by simpa [hfile] using hmem⟩

/-- Termination under progress: when every failing compile of a part of the module set
reports an error located in a present module, an invocation on at most `n + 1` modules
returns within `n + 1` invocations. -/
theorem compilePolicies_returns_of_progress (compile : Modules → List CompileError)
    (toUpper : String → String) (M : Modules) (hpaths : ∀ pm ∈ M, pm.1 ≠ "")
    (hprog : ∀ S : Modules, S.Sublist M → (compile S).length > 0 →
      ∃ e ∈ compile S, ∃ loc, e.Location = some loc ∧ loc.File ∈ S.map Prod.fst)
    (n : Nat) :
    ∀ (S : Modules) (md : MetadataMap), S.Sublist M → S.length ≤ n + 1 →
      ∃ r, compilePolicies compile toUpper (n + 1) ⟨S, md⟩ = some r := by
  induction n with
  | zero =>
    intro S md hS hlen
    rw [compilePolicies_succ]
    by_cases hE : (compile S).length > 0
    · obtain ⟨_, hlt⟩ := evict_present_step compile S
        (fun pm hpm => hpaths pm (hS.subset hpm)) (hprog S hS hE)
      have h0 : (deleteModules S (failedFiles (compile S))).length = 0 := by omega
      simp only [hE, h0, ↓reduceIte]
      exact ⟨_, rfl⟩
    · simp only [hE, ↓reduceIte]
      exact ⟨_, rfl⟩
  | succ n ih =>
    intro S md hS hlen
    rw [compilePolicies_succ]
    by_cases hE : (compile S).length > 0
    · obtain ⟨hsub, hlt⟩ := evict_present_step compile S
        (fun pm hpm => hpaths pm (hS.subset hpm)) (hprog S hS hE)
      by_cases h0 : (deleteModules S (failedFiles (compile S))).length = 0
      · simp only [hE, h0, ↓reduceIte]
        exact ⟨_, rfl⟩
      · by_cases hE2 : (compile (deleteModules S (failedFiles (compile S)))).length > 0
        · simp only [hE, h0, hE2, ↓reduceIte]
          exact ih _ _ (hsub.trans hS) (by omega)
        · simp only [hE, h0, hE2, ↓reduceIte]
          exact ⟨_, rfl⟩
    · simp only [hE, ↓reduceIte]
      exact ⟨_, rfl⟩

/-- When every compile of a non-empty part of the module set reports an error located
in a present module, an invocation on at most `n + 1` modules returns the fatal error
within `n + 1` invocations. -/
theorem compilePolicies_fails (compile : Modules → List CompileError)
    (toUpper : String → String) (M : Modules) (hpaths : ∀ pm ∈ M, pm.1 ≠ "")
    (hall : ∀ S : Modules, S.Sublist M → S ≠ [] →
      ∃ e ∈ compile S, ∃ loc, e.Location = some loc ∧ loc.File ∈ S.map Prod.fst)
    (n : Nat) :
    ∀ (S : Modules) (md : MetadataMap), S.Sublist M → S ≠ [] → S.length ≤ n + 1 →
      compilePolicies compile toUpper (n + 1) ⟨S, md⟩ =
        some (⟨[], md⟩, some "no policies compiled successfully") := by
  have hfailed : ∀ S : Modules, S.Sublist M → S ≠ [] → (compile S).length > 0 := by
    intro S hS hne
    obtain ⟨e, he, _⟩ := hall S hS hne
    exact List.length_pos_of_mem he
  induction n with
  | zero =>
    intro S md hS hne hlen
    rw [compilePolicies_succ]
    obtain ⟨_, hlt⟩ := evict_present_step compile S
      (fun pm hpm => hpaths pm (hS.subset hpm)) (hall S hS hne)
    have h0 : (deleteModules S (failedFiles (compile S))).length = 0 := by omega
    simp only [hfailed S hS hne, h0, ↓reduceIte]
    rw [List.length_eq_zero.1 h0]
  | succ n ih =>
    intro S md hS hne hlen
    rw [compilePolicies_succ]
    obtain ⟨hsub, hlt⟩ := evict_present_step compile S
      (fun pm hpm => hpaths pm (hS.subset hpm)) (hall S hS hne)
    by_cases h0 : (deleteModules S (failedFiles (compile S))).length = 0
    · simp only [hfailed S hS hne, h0, ↓reduceIte]
      rw [List.length_eq_zero.1 h0]
    · have hne2 : deleteModules S (failedFiles (compile S)) ≠ [] :=
        fun h => h0 (by rw [h]; rfl)
      simp only [hfailed S hS hne, h0, hfailed _ (hsub.trans hS) hne2, ↓reduceIte]
      exact ih _ _ (hsub.trans hS) hne2 (by omega)

/-- C9: given `N ≥ 1` loaded modules (non-empty paths) that all fail to compile (every
compile of a non-empty part of the module set reports an error located in a present
module), `compilePolicies` returns the fatal error `no policies compiled successfully`
with an empty module set within `N` invocations, and whenever it returns it returns that
error: it never returns success. -/
theorem compilePolicies_all_fail (compile : Modules → List CompileError)
    (toUpper : String → String) (pl : PolicyLoader)
    (hN : 1 ≤ pl.modules.length) (hpaths : ∀ pm ∈ pl.modules, pm.1 ≠ "")
    (hall : ∀ S : Modules, S.Sublist pl.modules → S ≠ [] →
      ∃ e ∈ compile S, ∃ loc, e.Location = some loc ∧ loc.File ∈ S.map Prod.fst) :
    compilePolicies compile toUpper pl.modules.length pl =
      some (⟨[], pl.metadata⟩, some "no policies compiled successfully") ∧
    ∀ (fuel : Nat) (r : PolicyLoader × Option String),
      compilePolicies compile toUpper fuel pl = some r →
      r.1.modules = [] ∧ r.2 = some "no policies compiled successfully" := by
  have hne : pl.modules ≠ [] := by
    intro h
    rw [h] at hN
    simp at hN
  have hmain : compilePolicies compile toUpper pl.modules.length pl =
      some (⟨[], pl.metadata⟩, some "no policies compiled successfully") := by
    obtain ⟨n, hn⟩ : ∃ n, pl.modules.length = n + 1 := ⟨pl.modules.length - 1, by omega⟩
    rw [hn]
    exact compilePolicies_fails compile toUpper pl.modules hpaths hall n pl.modules
      pl.metadata (List.Sublist.refl _) hne (by omega)
  refine ⟨hmain, ?_⟩
  intro fuel r hr
  have h1 := compilePolicies_fuel_mono compile toUpper fuel (max fuel pl.modules.length)
    (le_max_left _ _) pl r hr
  have h2 := compilePolicies_fuel_mono compile toUpper pl.modules.length
    (max fuel pl.modules.length) (le_max_right _ _) pl _ hmain
  rw [h1] at h2
  cases h2
  exact ⟨rfl, rfl⟩

/-- C9 on three modules with a compile step that reports an error for each of them. -/
theorem compilePolicies_all_fail_witness :
    compilePolicies compileAllFail id 3 ⟨threeModules, []⟩ =
      some (⟨[], []⟩, some "no policies compiled successfully") :=
  (compilePolicies_all_fail compileAllFail id ⟨threeModules, []⟩ (by decide) (by decide)
    (by
      intro S _ hne
      obtain ⟨pm, hpm⟩ := List.exists_mem_of_ne_nil S hne
      exact ⟨⟨some ⟨pm.1⟩⟩, List.mem_map.2 ⟨pm, hpm, rfl⟩, ⟨pm.1⟩, rfl,
        List.mem_map.2 ⟨pm, hpm, rfl⟩⟩)).1

/-! ### `extractMetadata` -/

/-- A guarded string assignment keeps a property that the assignment keeps. -/
theorem ifString_pres (P : PolicyMetadata → Prop) (v : Option Value)
    (md : PolicyMetadata) (assign : PolicyMetadata → String → PolicyMetadata)
    (hmd : P md) (h : ∀ m s, v = some (.str s) → P m → P (assign m s)) :
    P (ifString v md assign) := by
  unfold ifString
  split
  · exact h _ _ rfl hmd
  · exact hmd

theorem ifList_pres (P : PolicyMetadata → Prop) (v : Option Value)
    (md : PolicyMetadata) (assign : PolicyMetadata → List Value → PolicyMetadata)
    (hmd : P md) (h : ∀ m xs, v = some (.list xs) → P m → P (assign m xs)) :
    P (ifList v md assign) := by
  unfold ifList
  split
  · exact h _ _ rfl hmd
  · exact hmd

/-- A property of the record survives one round of the annotation loop when each of the
assignments the round can make keeps it. -/
theorem scanAnnot_pres (P : PolicyMetadata → Prop) (toUpper : String → String)
    (md : PolicyMetadata) (annot : Annotation) (hmd : P md)
    (hTitle : ∀ m s, P m → P { m with Title := s })
    (hDesc : ∀ m s, P m → P { m with Description := s })
    (hID : ∀ m s, (annot.Scope = "package" ∨ annot.Scope = "rule") →
      mapGet annot.Custom "id" = some (.str s) → P m → P { m with ID := s, AVDID := s })
    (hSev : ∀ m s, (annot.Scope = "package" ∨ annot.Scope = "rule") →
      mapGet annot.Custom "severity" = some (.str s) → P m →
      P { m with Severity := toUpper s })
    (hService : ∀ m s, P m → P { m with Service := s })
    (hProvider : ∀ m s, P m → P { m with Provider := s })
    (hRes : ∀ m s, P m → P { m with Resolution := s })
    (hRefs : ∀ m r, P m → P { m with References := r }) :
    P (scanAnnot toUpper md annot) := by
  unfold scanAnnot
  split
  · exact hmd
  · rename_i hscope
    have hsc : annot.Scope = "package" ∨ annot.Scope = "rule" := by
      by_cases h1 : annot.Scope = "package"
      · exact Or.inl h1
      · by_cases h2 : annot.Scope = "rule"
        · exact Or.inr h2
        · exact absurd ⟨h1, h2⟩ hscope
    dsimp only
    refine ifList_pres P _ _ _ ?_ (fun m xs _ h => hRefs m _ h)
    refine ifString_pres P _ _ _ ?_ (fun m s _ h => hRes m s h)
    refine ifString_pres P _ _ _ ?_ (fun m s _ h => hRes m s h)
    refine ifString_pres P _ _ _ ?_ (fun m s _ h => hProvider m s h)
    refine ifString_pres P _ _ _ ?_ (fun m s _ h => hService m s h)
    refine ifString_pres P _ _ _ ?_ (fun m s hv h => hSev m s hsc hv h)
    refine ifString_pres P _ _ _ ?_ (fun m s hv h => hID m s hsc hv h)
    refine ifString_pres P _ _ _ ?_ (fun m s _ h => hDesc m s h)
    exact ifString_pres P _ _ _ hmd (fun m s _ h => hTitle m s h)

/-- `ID` and `AVDID` agree throughout the annotation loop. -/
theorem foldl_scanAnnot_ids_eq (toUpper : String → String) (annots : List Annotation) :
    ∀ md : PolicyMetadata, md.ID = md.AVDID →
      (annots.foldl (scanAnnot toUpper) md).ID =
        (annots.foldl (scanAnnot toUpper) md).AVDID := by
  induction annots with
  | nil => intro md h; exact h
  | cons a rest ih =>
    intro md h
    rw [List.foldl_cons]
    apply ih
    exact scanAnnot_pres (fun m => m.ID = m.AVDID) toUpper md a h
      (fun _ _ h => h) (fun _ _ h => h) (fun _ _ _ _ _ => rfl) (fun _ _ _ _ h => h)
      (fun _ _ h => h) (fun _ _ h => h) (fun _ _ h => h) (fun _ _ h => h)

/-- The identifier stays empty while no scoped annotation supplies a non-empty id. -/
theorem foldl_scanAnnot_ID_empty (toUpper : String → String) (annots : List Annotation)
    (hno : ∀ a ∈ annots, (a.Scope = "package" ∨ a.Scope = "rule") →
      ∀ s, mapGet a.Custom "id" = some (.str s) → s = "") :
    ∀ md : PolicyMetadata, md.ID = "" → (annots.foldl (scanAnnot toUpper) md).ID = "" := by
  induction annots with
  | nil => intro md h; exact h
  | cons a rest ih =>
    intro md h
    rw [List.foldl_cons]
    apply ih (fun b hb => hno b (List.mem_cons_of_mem _ hb))
    exact scanAnnot_pres (fun m => m.ID = "") toUpper md a h
      (fun _ _ h => h) (fun _ _ h => h)
      (fun _ s hsc hv _ => hno a (List.mem_cons_self _ _) hsc s hv)
      (fun _ _ _ _ h => h)
      (fun _ _ h => h) (fun _ _ h => h) (fun _ _ h => h) (fun _ _ h => h)

/-- The severity stays empty while no scoped annotation holds a string severity. -/
theorem foldl_scanAnnot_Severity_empty (toUpper : String → String)
    (annots : List Annotation)
    (hno : ∀ a ∈ annots, (a.Scope = "package" ∨ a.Scope = "rule") →
      ∀ s, mapGet a.Custom "severity" ≠ some (.str s)) :
    ∀ md : PolicyMetadata, md.Severity = "" →
      (annots.foldl (scanAnnot toUpper) md).Severity = "" := by
  induction annots with
  | nil => intro md h; exact h
  | cons a rest ih =>
    intro md h
    rw [List.foldl_cons]
    apply ih (fun b hb => hno b (List.mem_cons_of_mem _ hb))
    exact scanAnnot_pres (fun m => m.Severity = "") toUpper md a h
      (fun _ _ h => h) (fun _ _ h => h) (fun _ _ _ _ h => h)
      (fun _ s hsc hv _ => absurd hv (hno a (List.mem_cons_self _ _) hsc s))
      (fun _ _ h => h) (fun _ _ h => h) (fun _ _ h => h) (fun _ _ h => h)

/-- The package-path fallback touches only `Provider` and `Service`. -/
theorem packageFallback_fields (toUpper : String → String) (md : PolicyMetadata)
    (package : Option String) :
    (packageFallback toUpper md package).ID = md.ID ∧
    (packageFallback toUpper md package).AVDID = md.AVDID ∧
    (packageFallback toUpper md package).Severity = md.Severity := by
  unfold packageFallback
  split
  · exact ⟨rfl, rfl, rfl⟩
  · dsimp only
    split
    · split <;> split <;> exact ⟨rfl, rfl, rfl⟩
    · exact ⟨rfl, rfl, rfl⟩

/-- What a returned record looks like, in terms of the scanned record `md0`. -/
theorem extractMetadata_some (toUpper : String → String) (mod : Module)
    (md : PolicyMetadata) (h : extractMetadata toUpper mod = some md) :
    md.ID = (mod.Annotations.foldl (scanAnnot toUpper) {}).ID ∧
    md.AVDID = (mod.Annotations.foldl (scanAnnot toUpper) {}).AVDID ∧
    md.ID ≠ "" ∧ md.AVDID ≠ "" ∧ md.Severity ≠ "" ∧
    ((mod.Annotations.foldl (scanAnnot toUpper) {}).Severity = "" →
      md.Severity = "MEDIUM") := by
  unfold extractMetadata at h
  obtain ⟨h1, h2, h3⟩ := packageFallback_fields toUpper
    (mod.Annotations.foldl (scanAnnot toUpper) {}) mod.Package
  split at h
  · exact absurd h (by simp)
  · dsimp only at h
    split at h
    · exact absurd h (by simp)
    · rename_i hid
      rw [not_or] at hid
      split at h
      · rename_i hsev
        cases h
        refine ⟨h1, h2, hid.1, hid.2, ?_, fun _ => rfl⟩
        show "MEDIUM" ≠ ""
        decide
      · rename_i hsev
        cases h
        exact ⟨h1, h2, hid.1, hid.2, hsev, fun h0 => absurd (h3.trans h0) hsev⟩

theorem extractMetadata_no_annotations (toUpper : String → String) (mod : Module)
    (h : mod.Annotations = []) : extractMetadata toUpper mod = none := by
  simp [extractMetadata, h]

theorem extractMetadata_no_id (toUpper : String → String) (mod : Module)
    (hno : ∀ a ∈ mod.Annotations, (a.Scope = "package" ∨ a.Scope = "rule") →
      ∀ s, mapGet a.Custom "id" = some (.str s) → s = "") :
    extractMetadata toUpper mod = none := by
  have h0 := foldl_scanAnnot_ID_empty toUpper mod.Annotations hno {} rfl
  have h1 := (packageFallback_fields toUpper
    (mod.Annotations.foldl (scanAnnot toUpper) {}) mod.Package).1
  unfold extractMetadata
  split
  · rfl
  · dsimp only
    rw [if_pos (Or.inl (h1.trans h0))]

/-! ### The metadata map after a successful compile -/

theorem mem_metaSet (m : MetadataMap) (key : String) (md : PolicyMetadata)
    (e : String × PolicyMetadata) (h : e ∈ metaSet m key md) : e ∈ m ∨ e = (key, md) := by
  induction m with
  | nil =>
    simp only [metaSet, List.mem_singleton] at h
    exact Or.inr h
  | cons hd tl ih =>
    obtain ⟨k, v⟩ := hd
    by_cases hk : k = key
    · simp only [metaSet, hk, ↓reduceIte, List.mem_cons] at h
      rcases h with h | h
      · exact Or.inr h
      · exact Or.inl (List.mem_cons_of_mem _ h)
    · simp only [metaSet, hk, ↓reduceIte, List.mem_cons] at h
      rcases h with h | h
      · exact Or.inl (h ▸ List.mem_cons_self _ _)
      · rcases ih h with h2 | h2
        · exact Or.inl (List.mem_cons_of_mem _ h2)
        · exact Or.inr h2

/-- Every binding of the rebuilt metadata map is a record extracted from one of the
modules, stored under its own `ID`. -/
theorem mem_rebuildMetadata (toUpper : String → String) (modules : Modules)
    (e : String × PolicyMetadata) (h : e ∈ rebuildMetadata toUpper modules) :
    e.1 = e.2.ID ∧ ∃ pm ∈ modules, extractMetadata toUpper pm.2 = some e.2 := by
  have key : ∀ (ms : Modules) (acc : MetadataMap),
      (∀ x ∈ acc, x.1 = x.2.ID ∧ ∃ pm ∈ modules, extractMetadata toUpper pm.2 = some x.2) →
      (∀ pm ∈ ms, pm ∈ modules) →
      ∀ x ∈ ms.foldl
        (fun metadata pm =>
          match extractMetadata toUpper pm.2 with
          | some md => metaSet metadata md.ID md
          | none => metadata) acc,
        x.1 = x.2.ID ∧ ∃ pm ∈ modules, extractMetadata toUpper pm.2 = some x.2 := by
    intro ms
    induction ms with
    | nil => intro acc hacc _ x hx; exact hacc x hx
    | cons pm rest ih =>
      intro acc hacc hsub x hx
      rw [List.foldl_cons] at hx
      refine ih _ ?_ (fun q hq => hsub q (List.mem_cons_of_mem _ hq)) x hx
      intro y hy
      cases hext : extractMetadata toUpper pm.2 with
      | none =>
        simp only [hext] at hy
        exact hacc y hy
      | some md =>
        simp only [hext] at hy
        rcases mem_metaSet _ _ _ _ hy with h1 | h1
        · exact hacc y h1
        · subst h1
          exact ⟨rfl, pm, hsub pm (List.mem_cons_self _ _), hext⟩
  exact key modules [] (fun x hx => absurd hx (List.not_mem_nil x)) (fun _ h => h) e h

/-- A successful return leaves the metadata map rebuilt from the retained modules. -/
theorem compilePolicies_success_metadata (compile : Modules → List CompileError)
    (toUpper : String → String) (fuel : Nat) :
    ∀ (pl pl2 : PolicyLoader), compilePolicies compile toUpper fuel pl = some (pl2, none) →
      pl2.metadata = rebuildMetadata toUpper pl2.modules := by
  induction fuel with
  | zero => intro pl pl2 h; simp [compilePolicies] at h
  | succ n ih =>
    intro pl pl2 h
    rw [compilePolicies_succ] at h
    by_cases hE : (compile pl.modules).length > 0
    · simp only [hE, ↓reduceIte] at h
      by_cases h0 : (deleteModules pl.modules (failedFiles (compile pl.modules))).length = 0
      · simp [h0] at h
      · simp only [h0, ↓reduceIte] at h
        by_cases hE2 : (compile (deleteModules pl.modules
            (failedFiles (compile pl.modules)))).length > 0
        · simp only [hE2, ↓reduceIte] at h
          exact ih _ _ h
        · simp only [hE2, ↓reduceIte, Option.some.injEq, Prod.mk.injEq, and_true] at h
          rw [← h]
    · simp only [hE, ↓reduceIte, Option.some.injEq, Prod.mk.injEq, and_true] at h
      rw [← h]

/-- C10: metadata retention invariant. (1) A record returned by `extractMetadata` has
`ID = AVDID`, both non-empty, and a non-empty `Severity`, which is `MEDIUM` when no
package- or rule-scoped annotation holds a string `severity`. (2) After a successful
`compilePolicies` every binding of the metadata map is stored under the `ID` of its
record, and the record satisfies the same invariant. (3) `extractMetadata` returns none
for a module without annotations, and (4) for a module none of whose package- or
rule-scoped annotations supplies a non-empty string `id`. -/
theorem extractMetadata_retention (toUpper : String → String) :
    (∀ (mod : Module) (md : PolicyMetadata), extractMetadata toUpper mod = some md →
      md.ID = md.AVDID ∧ md.ID ≠ "" ∧ md.AVDID ≠ "" ∧ md.Severity ≠ "" ∧
      ((∀ a ∈ mod.Annotations, (a.Scope = "package" ∨ a.Scope = "rule") →
          ∀ s, mapGet a.Custom "severity" ≠ some (.str s)) →
        md.Severity = "MEDIUM")) ∧
    (∀ (compile : Modules → List CompileError) (fuel : Nat) (pl pl2 : PolicyLoader),
      compilePolicies compile toUpper fuel pl = some (pl2, none) →
      ∀ (k : String) (md : PolicyMetadata), (k, md) ∈ pl2.metadata →
        k = md.ID ∧ md.ID = md.AVDID ∧ md.ID ≠ "" ∧ md.AVDID ≠ "" ∧ md.Severity ≠ "") ∧
    (∀ mod : Module, mod.Annotations = [] → extractMetadata toUpper mod = none) ∧
    (∀ mod : Module,
      (∀ a ∈ mod.Annotations, (a.Scope = "package" ∨ a.Scope = "rule") →
        ∀ s, mapGet a.Custom "id" = some (.str s) → s = "") →
      extractMetadata toUpper mod = none) := by
  have part1 : ∀ (mod : Module) (md : PolicyMetadata),
      extractMetadata toUpper mod = some md →
      md.ID = md.AVDID ∧ md.ID ≠ "" ∧ md.AVDID ≠ "" ∧ md.Severity ≠ "" ∧
      ((∀ a ∈ mod.Annotations, (a.Scope = "package" ∨ a.Scope = "rule") →
          ∀ s, mapGet a.Custom "severity" ≠ some (.str s)) →
        md.Severity = "MEDIUM") := by
    intro mod md h
    obtain ⟨h1, h2, h3, h4, h5, h6⟩ := extractMetadata_some toUpper mod md h
    refine ⟨?_, h3, h4, h5, ?_⟩
    · rw [h1, h2]
      exact foldl_scanAnnot_ids_eq toUpper mod.Annotations {} rfl
    · intro hno
      exact h6 (foldl_scanAnnot_Severity_empty toUpper mod.Annotations hno {} rfl)
  refine ⟨part1, ?_, extractMetadata_no_annotations toUpper, extractMetadata_no_id toUpper⟩
  intro compile fuel pl pl2 h k md hmem
  rw [compilePolicies_success_metadata compile toUpper fuel pl pl2 h] at hmem
  obtain ⟨hk, pm, _, hext⟩ := mem_rebuildMetadata toUpper pl2.modules (k, md) hmem
  obtain ⟨h1, h2, h3, h4, _⟩ := part1 pm.2 md hext
  exact ⟨hk, h1, h2, h3, h4⟩

/-- C10 on a module with an ignored unscoped annotation and two scoped ones: the record
takes its id from the package annotation and the default severity. -/
theorem extractMetadata_retention_witness :
    extractMetadata asciiUpper twoRuleModule = some twoRuleRecord ∧
    twoRuleRecord.ID = twoRuleRecord.AVDID ∧ twoRuleRecord.ID ≠ "" ∧
    twoRuleRecord.AVDID ≠ "" ∧ twoRuleRecord.Severity ≠ "" ∧
    twoRuleRecord.Severity = "MEDIUM" :=
  have hw := (extractMetadata_retention asciiUpper).1 twoRuleModule twoRuleRecord
    (by decide)
  ⟨by decide, hw.1, hw.2.1, hw.2.2.1, hw.2.2.2.1, hw.2.2.2.2 (by
      intro a ha hsc s
      simp only [twoRuleModule, List.mem_cons, List.mem_singleton, List.not_mem_nil,
        or_false] at ha
      rcases ha with rfl | rfl | rfl
      · simp at hsc
      · simp [mapGet]
      · simp [mapGet])⟩

/-! ### `extractMetadata`: last writer and fallback -/

/-- A guarded string assignment leaves a field alone when the assignment does. -/
theorem ifString_proj {α : Type} (f : PolicyMetadata → α) (v : Option Value)
    (md : PolicyMetadata) (assign : PolicyMetadata → String → PolicyMetadata)
    (h : ∀ m s, f (assign m s) = f m) : f (ifString v md assign) = f md := by
  unfold ifString
  split
  · exact h _ _
  · rfl

theorem ifList_proj {α : Type} (f : PolicyMetadata → α) (v : Option Value)
    (md : PolicyMetadata) (assign : PolicyMetadata → List Value → PolicyMetadata)
    (h : ∀ m xs, f (assign m xs) = f m) : f (ifList v md assign) = f md := by
  unfold ifList
  split
  · exact h _ _
  · rfl

/-- A guarded string assignment that sets the field to `g s` gives `g s` when the entry
holds the string `s`, and the old field otherwise. -/
theorem ifString_apply {α : Type} (f : PolicyMetadata → α) (g : String → α)
    (v : Option Value) (md : PolicyMetadata)
    (assign : PolicyMetadata → String → PolicyMetadata)
    (h : ∀ m s, f (assign m s) = g s) :
    f (ifString v md assign) = ((asString v).map g).getD (f md) := by
  unfold ifString asString
  split
  · simp [h]
  · simp

theorem appendRefs_eq (refs : List Value) :
    ∀ acc : List String, appendRefs acc refs = acc ++ refStrings refs := by
  induction refs with
  | nil => intro acc; simp [appendRefs, refStrings]
  | cons r rest ih =>
    intro acc
    cases r <;> simp [appendRefs, refStrings, ih]

theorem isScoped_iff (annot : Annotation) :
    isScoped annot = true ↔ ¬ (annot.Scope ≠ "package" ∧ annot.Scope ≠ "rule") := by
  unfold isScoped
  by_cases h1 : annot.Scope = "package" <;> by_cases h2 : annot.Scope = "rule" <;>
    simp [h1, h2]

theorem isScoped_eq_false (annot : Annotation)
    (h : annot.Scope ≠ "package" ∧ annot.Scope ≠ "rule") : isScoped annot = false := by
  rw [← Bool.not_eq_true, isScoped_iff]
  exact not_not.2 h

theorem scanAnnot_Title (toUpper : String → String) (md : PolicyMetadata)
    (annot : Annotation) :
    (scanAnnot toUpper md annot).Title =
      ((if isScoped annot then strField annot "title" else none).getD md.Title) := by
  unfold scanAnnot
  split
  · rename_i h
    simp [isScoped_eq_false annot h]
  · rename_i h
    dsimp only
    rw [ifList_proj PolicyMetadata.Title, ifString_proj PolicyMetadata.Title,
      ifString_proj PolicyMetadata.Title, ifString_proj PolicyMetadata.Title,
      ifString_proj PolicyMetadata.Title, ifString_proj PolicyMetadata.Title,
      ifString_proj PolicyMetadata.Title, ifString_proj PolicyMetadata.Title,
      ifString_apply PolicyMetadata.Title id]
    · simp [(isScoped_iff annot).2 h, strField]
    all_goals intro _ _; rfl

theorem scanAnnot_Description (toUpper : String → String) (md : PolicyMetadata)
    (annot : Annotation) :
    (scanAnnot toUpper md annot).Description =
      ((if isScoped annot then strField annot "description" else none).getD
        md.Description) := by
  unfold scanAnnot
  split
  · rename_i h
    simp [isScoped_eq_false annot h]
  · rename_i h
    dsimp only
    rw [ifList_proj PolicyMetadata.Description, ifString_proj PolicyMetadata.Description,
      ifString_proj PolicyMetadata.Description, ifString_proj PolicyMetadata.Description,
      ifString_proj PolicyMetadata.Description, ifString_proj PolicyMetadata.Description,
      ifString_proj PolicyMetadata.Description,
      ifString_apply PolicyMetadata.Description id,
      ifString_proj PolicyMetadata.Description]
    · simp [(isScoped_iff annot).2 h, strField]
    all_goals intro _ _; rfl

theorem scanAnnot_ID (toUpper : String → String) (md : PolicyMetadata)
    (annot : Annotation) :
    (scanAnnot toUpper md annot).ID =
      ((if isScoped annot then strField annot "id" else none).getD md.ID) := by
  unfold scanAnnot
  split
  · rename_i h
    simp [isScoped_eq_false annot h]
  · rename_i h
    dsimp only
    rw [ifList_proj PolicyMetadata.ID, ifString_proj PolicyMetadata.ID,
      ifString_proj PolicyMetadata.ID, ifString_proj PolicyMetadata.ID,
      ifString_proj PolicyMetadata.ID, ifString_proj PolicyMetadata.ID,
      ifString_apply PolicyMetadata.ID id,
      ifString_proj PolicyMetadata.ID, ifString_proj PolicyMetadata.ID]
    · simp [(isScoped_iff annot).2 h, strField]
    all_goals intro _ _; rfl

theorem scanAnnot_Severity (toUpper : String → String) (md : PolicyMetadata)
    (annot : Annotation) :
    (scanAnnot toUpper md annot).Severity =
      ((if isScoped annot then (strField annot "severity").map toUpper else none).getD
        md.Severity) := by
  unfold scanAnnot
  split
  · rename_i h
    simp [isScoped_eq_false annot h]
  · rename_i h
    dsimp only
    rw [ifList_proj PolicyMetadata.Severity, ifString_proj PolicyMetadata.Severity,
      ifString_proj PolicyMetadata.Severity, ifString_proj PolicyMetadata.Severity,
      ifString_proj PolicyMetadata.Severity,
      ifString_apply PolicyMetadata.Severity toUpper,
      ifString_proj PolicyMetadata.Severity, ifString_proj PolicyMetadata.Severity,
      ifString_proj PolicyMetadata.Severity]
    · simp [(isScoped_iff annot).2 h, strField]
    all_goals intro _ _; rfl

theorem scanAnnot_Service (toUpper : String → String) (md : PolicyMetadata)
    (annot : Annotation) :
    (scanAnnot toUpper md annot).Service =
      ((if isScoped annot then strField annot "service" else none).getD md.Service) := by
  unfold scanAnnot
  split
  · rename_i h
    simp [isScoped_eq_false annot h]
  · rename_i h
    dsimp only
    rw [ifList_proj PolicyMetadata.Service, ifString_proj PolicyMetadata.Service,
      ifString_proj PolicyMetadata.Service, ifString_proj PolicyMetadata.Service,
      ifString_apply PolicyMetadata.Service id,
      ifString_proj PolicyMetadata.Service, ifString_proj PolicyMetadata.Service,
      ifString_proj PolicyMetadata.Service, ifString_proj PolicyMetadata.Service]
    · simp [(isScoped_iff annot).2 h, strField]
    all_goals intro _ _; rfl

theorem scanAnnot_Provider (toUpper : String → String) (md : PolicyMetadata)
    (annot : Annotation) :
    (scanAnnot toUpper md annot).Provider =
      ((if isScoped annot then strField annot "provider" else none).getD md.Provider) := by
  unfold scanAnnot
  split
  · rename_i h
    simp [isScoped_eq_false annot h]
  · rename_i h
    dsimp only
    rw [ifList_proj PolicyMetadata.Provider, ifString_proj PolicyMetadata.Provider,
      ifString_proj PolicyMetadata.Provider,
      ifString_apply PolicyMetadata.Provider id,
      ifString_proj PolicyMetadata.Provider, ifString_proj PolicyMetadata.Provider,
      ifString_proj PolicyMetadata.Provider, ifString_proj PolicyMetadata.Provider,
      ifString_proj PolicyMetadata.Provider]
    · simp [(isScoped_iff annot).2 h, strField]
    all_goals intro _ _; rfl

theorem scanAnnot_Resolution (toUpper : String → String) (md : PolicyMetadata)
    (annot : Annotation) :
    (scanAnnot toUpper md annot).Resolution =
      ((if isScoped annot then resolutionField annot else none).getD md.Resolution) := by
  unfold scanAnnot
  split
  · rename_i h
    simp [isScoped_eq_false annot h]
  · rename_i h
    dsimp only
    rw [ifList_proj PolicyMetadata.Resolution,
      ifString_apply PolicyMetadata.Resolution id,
      ifString_apply PolicyMetadata.Resolution id,
      ifString_proj PolicyMetadata.Resolution, ifString_proj PolicyMetadata.Resolution,
      ifString_proj PolicyMetadata.Resolution, ifString_proj PolicyMetadata.Resolution,
      ifString_proj PolicyMetadata.Resolution, ifString_proj PolicyMetadata.Resolution]
    · simp only [(isScoped_iff annot).2 h, ↓reduceIte, resolutionField, strField,
        Option.map_id_fun, id_eq]
      cases asString (mapGet annot.Custom "resolution") <;> rfl
    all_goals intro _ _; rfl

theorem scanAnnot_References (toUpper : String → String) (md : PolicyMetadata)
    (annot : Annotation) :
    (scanAnnot toUpper md annot).References =
      md.References ++ (if isScoped annot then (refsField annot).getD [] else []) := by
  unfold scanAnnot
  split
  · rename_i h
    simp [isScoped_eq_false annot h]
  · rename_i h
    dsimp only
    simp only [(isScoped_iff annot).2 h, ↓reduceIte, refsField]
    unfold ifList asList
    split
    · simp only [appendRefs_eq, Option.map_some', Option.getD_some]
      rw [ifString_proj PolicyMetadata.References, ifString_proj PolicyMetadata.References,
        ifString_proj PolicyMetadata.References, ifString_proj PolicyMetadata.References,
        ifString_proj PolicyMetadata.References, ifString_proj PolicyMetadata.References,
        ifString_proj PolicyMetadata.References, ifString_proj PolicyMetadata.References]
      all_goals intro _ _; rfl
    · simp only [Option.map_none', Option.getD_none, List.append_nil]
      rw [ifString_proj PolicyMetadata.References, ifString_proj PolicyMetadata.References,
        ifString_proj PolicyMetadata.References, ifString_proj PolicyMetadata.References,
        ifString_proj PolicyMetadata.References, ifString_proj PolicyMetadata.References,
        ifString_proj PolicyMetadata.References, ifString_proj PolicyMetadata.References]
      all_goals intro _ _; rfl

/-- A field that each round either overwrites with the value an annotation gives or
leaves alone ends with the value of the last annotation giving one. -/
theorem foldl_field_last {β : Type} (f : PolicyMetadata → β) (g : Annotation → Option β)
    (step : PolicyMetadata → Annotation → PolicyMetadata)
    (hstep : ∀ md a, f (step md a) = (g a).getD (f md)) (annots : List Annotation) :
    ∀ md : PolicyMetadata,
      f (annots.foldl step md) = ((annots.filterMap g).getLast?).getD (f md) := by
  induction annots with
  | nil => intro md; simp
  | cons a rest ih =>
    intro md
    rw [List.foldl_cons, ih, hstep]
    cases hg : g a with
    | none => simp [List.filterMap_cons, hg]
    | some b => simp [List.filterMap_cons, hg, List.getLast?_cons]

theorem scanned_Title (toUpper : String → String) (annots : List Annotation) :
    (annots.foldl (scanAnnot toUpper) {}).Title = (lastString annots "title").getD "" :=
  foldl_field_last PolicyMetadata.Title _ _ (scanAnnot_Title toUpper) annots {}

theorem scanned_Description (toUpper : String → String) (annots : List Annotation) :
    (annots.foldl (scanAnnot toUpper) {}).Description =
      (lastString annots "description").getD "" :=
  foldl_field_last PolicyMetadata.Description _ _ (scanAnnot_Description toUpper) annots {}

theorem scanned_ID (toUpper : String → String) (annots : List Annotation) :
    (annots.foldl (scanAnnot toUpper) {}).ID = (lastString annots "id").getD "" :=
  foldl_field_last PolicyMetadata.ID _ _ (scanAnnot_ID toUpper) annots {}

theorem scanned_Service (toUpper : String → String) (annots : List Annotation) :
    (annots.foldl (scanAnnot toUpper) {}).Service = (lastString annots "service").getD "" :=
  foldl_field_last PolicyMetadata.Service _ _ (scanAnnot_Service toUpper) annots {}

theorem scanned_Provider (toUpper : String → String) (annots : List Annotation) :
    (annots.foldl (scanAnnot toUpper) {}).Provider =
      (lastString annots "provider").getD "" :=
  foldl_field_last PolicyMetadata.Provider _ _ (scanAnnot_Provider toUpper) annots {}

theorem scanned_Resolution (toUpper : String → String) (annots : List Annotation) :
    (annots.foldl (scanAnnot toUpper) {}).Resolution = (lastResolution annots).getD "" :=
  foldl_field_last PolicyMetadata.Resolution _ _ (scanAnnot_Resolution toUpper) annots {}

theorem scanned_Severity (toUpper : String → String) (annots : List Annotation) :
    (annots.foldl (scanAnnot toUpper) {}).Severity =
      ((lastString annots "severity").map toUpper).getD "" := by
  rw [foldl_field_last PolicyMetadata.Severity _ _ (scanAnnot_Severity toUpper) annots {}]
  have hg : (fun a => if isScoped a = true then (strField a "severity").map toUpper
        else none) =
      fun a => (if isScoped a = true then strField a "severity" else none).map toUpper := by
    funext a
    split <;> rfl
  rw [hg, ← List.map_filterMap, List.getLast?_map]
  rfl

theorem scanned_References (toUpper : String → String) (annots : List Annotation) :
    ∀ md : PolicyMetadata,
      (annots.foldl (scanAnnot toUpper) md).References = md.References ++ allRefs annots := by
  induction annots with
  | nil => intro md; simp [allRefs]
  | cons a rest ih =>
    intro md
    rw [List.foldl_cons, ih, scanAnnot_References]
    simp [allRefs, List.flatMap_cons]

/-- The string `lastString` returns is held by a package- or rule-scoped annotation. -/
theorem lastString_mem (annots : List Annotation) (key s : String)
    (h : lastString annots key = some s) :
    ∃ a ∈ annots, isScoped a = true ∧ strField a key = some s := by
  have hm := List.mem_of_getLast?_eq_some h
  obtain ⟨a, ha, hs⟩ := List.mem_filterMap.1 hm
  by_cases hsc : isScoped a = true
  · exact ⟨a, ha, hsc, by simpa [hsc] using hs⟩
  · simp [hsc] at hs

/-- The provider left by the package-path fallback. -/
theorem packageFallback_Provider (toUpper : String → String) (md : PolicyMetadata)
    (path : String) :
    (packageFallback toUpper md (some path)).Provider =
      if md.Provider = "" ∧ 3 ≤ (splitDot path).length then
        toUpper ((splitDot path).getD 2 "")
      else md.Provider := by
  unfold packageFallback
  dsimp only
  by_cases h3 : (splitDot path).length ≥ 3
  · have h2 : (splitDot path).length > 2 := h3
    by_cases hp : md.Provider = ""
    · simp only [h3, h2, hp, and_self, ↓reduceIte]
      split <;> rfl
    · simp only [h3, hp, false_and, ↓reduceIte]
      split <;> rfl
  · have h3b : ¬ 3 ≤ (splitDot path).length := h3
    simp only [h3, h3b, and_false, ↓reduceIte]

/-- The service left by the package-path fallback. -/
theorem packageFallback_Service (toUpper : String → String) (md : PolicyMetadata)
    (path : String) :
    (packageFallback toUpper md (some path)).Service =
      if md.Service = "" ∧ 4 ≤ (splitDot path).length then (splitDot path).getD 3 ""
      else md.Service := by
  unfold packageFallback
  dsimp only
  by_cases h3 : (splitDot path).length ≥ 3
  · by_cases h4 : (splitDot path).length > 3
    · have h4b : 4 ≤ (splitDot path).length := h4
      by_cases hs : md.Service = ""
      · simp only [h3, h4, h4b, hs, and_self, ↓reduceIte]
        split <;> simp [hs]
      · simp only [h3, hs, false_and, ↓reduceIte]
        split <;> simp [hs]
    · have h4b : ¬ 4 ≤ (splitDot path).length := h4
      simp only [h3, h4, h4b, and_false, ↓reduceIte]
      split <;> rfl
  · have h4b : ¬ 4 ≤ (splitDot path).length := by omega
    simp only [h3, h4b, and_false, ↓reduceIte]

/-- The fallback keeps a provider and a service that are already set, also when the
module has no package. -/
theorem packageFallback_keeps (toUpper : String → String) (md : PolicyMetadata)
    (package : Option String) :
    (md.Provider ≠ "" → (packageFallback toUpper md package).Provider = md.Provider) ∧
    (md.Service ≠ "" → (packageFallback toUpper md package).Service = md.Service) := by
  cases package with
  | none => exact ⟨fun _ => rfl, fun _ => rfl⟩
  | some path =>
    constructor
    · intro h
      rw [packageFallback_Provider]
      simp [h]
    · intro h
      rw [packageFallback_Service]
      simp [h]

/-- The fallback leaves the fields read from the annotations alone. -/
theorem packageFallback_rest (toUpper : String → String) (md : PolicyMetadata)
    (package : Option String) :
    (packageFallback toUpper md package).Title = md.Title ∧
    (packageFallback toUpper md package).Description = md.Description ∧
    (packageFallback toUpper md package).Resolution = md.Resolution ∧
    (packageFallback toUpper md package).References = md.References := by
  unfold packageFallback
  split
  · exact ⟨rfl, rfl, rfl, rfl⟩
  · dsimp only
    split
    · split <;> split <;> exact ⟨rfl, rfl, rfl, rfl⟩
    · exact ⟨rfl, rfl, rfl, rfl⟩

/-- A returned record is the record after the fallback, with the severity defaulted. -/
theorem extractMetadata_eq (toUpper : String → String) (mod : Module)
    (md : PolicyMetadata) (h : extractMetadata toUpper mod = some md) :
    md = { packageFallback toUpper (mod.Annotations.foldl (scanAnnot toUpper) {})
            mod.Package with
          Severity :=
            if (mod.Annotations.foldl (scanAnnot toUpper) {}).Severity = "" then "MEDIUM"
            else (mod.Annotations.foldl (scanAnnot toUpper) {}).Severity } := by
  unfold extractMetadata at h
  have h3 := (packageFallback_fields toUpper
    (mod.Annotations.foldl (scanAnnot toUpper) {}) mod.Package).2.2
  split at h
  · exact absurd h (by simp)
  · dsimp only at h
    split at h
    · exact absurd h (by simp)
    · split at h
      · rename_i hsev
        cases h
        rw [if_pos (h3 ▸ hsev)]
      · rename_i hsev
        cases h
        rw [if_neg (h3 ▸ hsev), ← h3]

/-- C11, as stated, fails in its last clause: in package `data.builtin.aws.s3`, the
package annotation sets the provider `gcp` and the later rule annotation sets it to the
empty string; the record returned carries the path-derived provider `AWS`, so a provider
set non-empty by an annotation has been replaced by the path-derived value. -/
theorem extractMetadata_blanked_provider_replaced :
    extractMetadata asciiUpper blankedModule = some blankedRecord ∧
    (∃ a ∈ blankedModule.Annotations, isScoped a = true ∧
      strField a "provider" = some "gcp") ∧
    lastString blankedModule.Annotations "provider" = some "" ∧
    asciiUpper ((splitDot "data.builtin.aws.s3").getD 2 "") = "AWS" ∧
    blankedRecord.Provider = "AWS" ∧ blankedRecord.Provider ≠ "gcp" :=
  ⟨by decide, ⟨⟨"package", [("id", .str "AVD-GCP-0001"), ("provider", .str "gcp")]⟩,
      List.Mem.head _, by decide, by decide⟩,
    by decide, by decide, by decide, by decide⟩

/-- C11, amended: provider and service fallback. For a module with package path `path`
for which `extractMetadata` returns a record: when no package- or rule-scoped annotation
holds a non-empty string `provider` and the path has at least 3 components, `Provider`
is the upper-cased component at index 2; when none holds a non-empty string `service`
and the path has at least 4 components, `Service` is the component at index 3; and a
non-empty provider or service left by the annotations, that is the value of the last
annotation setting it, is the one returned, not the path-derived value. In full:
`Provider` (`Service`) is the path-derived value exactly when the value left by the
annotations is empty and the path has at least 3 (4) components, and the value left by
the annotations otherwise. -/
theorem extractMetadata_fallback (toUpper : String → String) (mod : Module)
    (md : PolicyMetadata) (path : String)
    (h : extractMetadata toUpper mod = some md) (hp : mod.Package = some path) :
    ((∀ a ∈ mod.Annotations, isScoped a = true →
        ∀ s, strField a "provider" = some s → s = "") →
      3 ≤ (splitDot path).length → md.Provider = toUpper ((splitDot path).getD 2 "")) ∧
    ((∀ a ∈ mod.Annotations, isScoped a = true →
        ∀ s, strField a "service" = some s → s = "") →
      4 ≤ (splitDot path).length → md.Service = (splitDot path).getD 3 "") ∧
    (∀ s, lastString mod.Annotations "provider" = some s → s ≠ "" → md.Provider = s) ∧
    (∀ s, lastString mod.Annotations "service" = some s → s ≠ "" → md.Service = s) ∧
    md.Provider =
      (if (lastString mod.Annotations "provider").getD "" = "" ∧
          3 ≤ (splitDot path).length then
        toUpper ((splitDot path).getD 2 "")
      else (lastString mod.Annotations "provider").getD "") ∧
    md.Service =
      (if (lastString mod.Annotations "service").getD "" = "" ∧
          4 ≤ (splitDot path).length then
        (splitDot path).getD 3 ""
      else (lastString mod.Annotations "service").getD "") := by
  have heq := extractMetadata_eq toUpper mod md h
  have hP : md.Provider = (packageFallback toUpper
      (mod.Annotations.foldl (scanAnnot toUpper) {}) mod.Package).Provider := by
    rw [heq]
  have hS : md.Service = (packageFallback toUpper
      (mod.Annotations.foldl (scanAnnot toUpper) {}) mod.Package).Service := by
    rw [heq]
  have hempty : ∀ key : String,
      (∀ a ∈ mod.Annotations, isScoped a = true → ∀ s, strField a key = some s → s = "") →
      (lastString mod.Annotations key).getD "" = "" := by
    intro key hno
    cases hl : lastString mod.Annotations key with
    | none => rfl
    | some s =>
      obtain ⟨a, ha, hsc, hs⟩ := lastString_mem mod.Annotations key s hl
      simpa using hno a ha hsc s hs
  have hkeep := packageFallback_keeps toUpper
    (mod.Annotations.foldl (scanAnnot toUpper) {}) mod.Package
  refine ⟨?_, ?_, ?_, ?_, ?_, ?_⟩
  · intro hno hlen
    rw [hP, hp, packageFallback_Provider, scanned_Provider, hempty "provider" hno]
    simp [hlen]
  · intro hno hlen
    rw [hS, hp, packageFallback_Service, scanned_Service, hempty "service" hno]
    simp [hlen]
  · intro s hl hne
    rw [hP, hkeep.1 (by rw [scanned_Provider, hl]; exact hne), scanned_Provider, hl]
    rfl
  · intro s hl hne
    rw [hS, hkeep.2 (by rw [scanned_Service, hl]; exact hne), scanned_Service, hl]
    rfl
  · rw [hP, hp, packageFallback_Provider, scanned_Provider]
  · rw [hS, hp, packageFallback_Service, scanned_Service]

/-- C11 amended, on a module in package `data.builtin.aws.s3` whose rule annotation names
the provider `custom` and no service: the provider is kept, the service comes from the
path. -/
theorem extractMetadata_fallback_witness :
    extractMetadata asciiUpper providerModule = some providerRecord ∧
    providerRecord.Service = "s3" ∧ providerRecord.Provider = "custom" :=
  have hw := extractMetadata_fallback asciiUpper providerModule providerRecord
    "data.builtin.aws.s3" (by decide) rfl
  ⟨by decide,
    (hw.2.1 (by
      intro a ha _ s hs
      simp only [providerModule, List.mem_singleton] at ha
      subst ha
      simp [strField, asString, mapGet] at hs) (by decide)).trans (by decide),
    hw.2.2.1 "custom" (by decide) (by decide)⟩

/-- C12, as stated, fails for references: with a package annotation and a rule
annotation that both declare references, the record holds the references of both, not
the string list of the last annotation that declares them. -/
theorem extractMetadata_references_accumulate :
    extractMetadata asciiUpper twoRefsModule = some twoRefsRecord ∧
    lastRefs twoRefsModule.Annotations = some ["https://b.example"] ∧
    twoRefsRecord.References = ["https://a.example", "https://b.example"] ∧
    some twoRefsRecord.References ≠ lastRefs twoRefsModule.Annotations :=
  ⟨by decide, by decide, by decide, by decide⟩

/-- C12, amended: last writer wins for the string fields, references accumulate. For a
record returned by `extractMetadata`, over the package- or rule-scoped annotations in
order: `Title`, `Description` and `ID` (with `AVDID`) are the strings given by the last
annotation holding a string `title`, `description`, `id` (empty when none does);
`Severity` is the upper-cased string of the last annotation holding a string `severity`,
or `MEDIUM` when that is empty or absent; `Service` and `Provider` are the strings of the
last annotation holding one, when non-empty; `Resolution` is the text of the last
annotation holding `resolution` or `remediation`, `resolution` winning inside one
annotation; `References` is the concatenation, in annotation order, of the string
elements of every declared `references` list. -/
theorem extractMetadata_last_writer (toUpper : String → String) (mod : Module)
    (md : PolicyMetadata) (h : extractMetadata toUpper mod = some md) :
    md.Title = (lastString mod.Annotations "title").getD "" ∧
    md.Description = (lastString mod.Annotations "description").getD "" ∧
    lastString mod.Annotations "id" = some md.ID ∧ md.AVDID = md.ID ∧
    md.Severity =
      (if ((lastString mod.Annotations "severity").map toUpper).getD "" = "" then "MEDIUM"
       else ((lastString mod.Annotations "severity").map toUpper).getD "") ∧
    (∀ s, lastString mod.Annotations "service" = some s → s ≠ "" → md.Service = s) ∧
    (∀ s, lastString mod.Annotations "provider" = some s → s ≠ "" → md.Provider = s) ∧
    md.Resolution = (lastResolution mod.Annotations).getD "" ∧
    md.References = allRefs mod.Annotations ∧
    (∀ a : Annotation, ∀ s : String, strField a "resolution" = some s →
      resolutionField a = some s) := by
  have heq := extractMetadata_eq toUpper mod md h
  obtain ⟨hid, havd, hne, _, _, _⟩ := extractMetadata_some toUpper mod md h
  obtain ⟨r1, r2, r3, r4⟩ := packageFallback_rest toUpper
    (mod.Annotations.foldl (scanAnnot toUpper) {}) mod.Package
  have hkeep := packageFallback_keeps toUpper
    (mod.Annotations.foldl (scanAnnot toUpper) {}) mod.Package
  have hids := foldl_scanAnnot_ids_eq toUpper mod.Annotations {} rfl
  refine ⟨?_, ?_, ?_, ?_, ?_, ?_, ?_, ?_, ?_, ?_⟩
  · rw [heq]; exact r1.trans (scanned_Title toUpper _)
  · rw [heq]; exact r2.trans (scanned_Description toUpper _)
  · rw [scanned_ID] at hid
    cases hl : lastString mod.Annotations "id" with
    | none =>
      rw [hl] at hid
      exact absurd hid hne
    | some s =>
      rw [hl] at hid
      rw [hid]; rfl
  · rw [havd, hid]; exact hids.symm
  · rw [heq]
    show (if (mod.Annotations.foldl (scanAnnot toUpper) {}).Severity = "" then "MEDIUM"
      else (mod.Annotations.foldl (scanAnnot toUpper) {}).Severity) = _
    rw [scanned_Severity]
  · intro s hl hs
    rw [heq]
    show (packageFallback toUpper _ mod.Package).Service = s
    rw [hkeep.2 (by rw [scanned_Service, hl]; exact hs), scanned_Service, hl]
    rfl
  · intro s hl hs
    rw [heq]
    show (packageFallback toUpper _ mod.Package).Provider = s
    rw [hkeep.1 (by rw [scanned_Provider, hl]; exact hs), scanned_Provider, hl]
    rfl
  · rw [heq]; exact r3.trans (scanned_Resolution toUpper _)
  · rw [heq]
    refine r4.trans ?_
    rw [scanned_References]
    rfl
  · intro a s hs
    simp [resolutionField, hs]

/-- C12 amended, on a module whose package annotation gives id, severity, remediation,
resolution and references and whose rule annotation gives a title and more references. -/
theorem extractMetadata_last_writer_witness :
    extractMetadata asciiUpper twoRefsModule = some twoRefsRecord ∧
    twoRefsRecord.Title = "Public bucket" ∧
    twoRefsRecord.Severity = "HIGH" ∧
    twoRefsRecord.Resolution = "Block public access" ∧
    twoRefsRecord.References = ["https://a.example", "https://b.example"] :=
  have hw := extractMetadata_last_writer asciiUpper twoRefsModule twoRefsRecord (by decide)
  ⟨by decide, hw.1.trans (by decide), hw.2.2.2.2.1.trans (by decide),
    hw.2.2.2.2.2.2.2.1.trans (by decide), hw.2.2.2.2.2.2.2.2.1.trans (by decide)⟩

/-! ### `resultToMisconfiguration` -/

theorem asString_eq_some (v : Option Value) (s : String) :
    asString v = some s ↔ v = some (.str s) := by
  unfold asString
  split
  · rename_i t
    constructor
    · intro h; cases h; rfl
    · intro h; cases h; rfl
  · rename_i hv
    constructor
    · intro h; cases h
    · intro h; exact absurd h (hv s)

/-- The idiom `x, _ := v.(string)` gives the empty string exactly when the entry is not
a non-empty string. -/
theorem asString_getD_eq_empty (v : Option Value) :
    (asString v).getD "" = "" ↔ ∀ s, v = some (.str s) → s = "" := by
  constructor
  · intro h s hv
    rw [(asString_eq_some v s).2 hv] at h
    exact h
  · intro h
    cases hs : asString v with
    | none => rfl
    | some s => exact h s ((asString_eq_some v s).1 hs)

theorem asString_getD_of_some (v : Option Value) (s : String) (h : v = some (.str s)) :
    (asString v).getD "" = s := by
  rw [(asString_eq_some v s).2 h]
  rfl

/-- The message of the finding, as computed: `msg`, else `message`, else the
description of the record read. -/
theorem resultToMisconfiguration_Message (toLower : String → String)
    (metadata : MetadataMap) (result : GoMap) (ns targetPath : String) :
    (resultToMisconfiguration toLower metadata result ns targetPath).Message =
      if (asString (mapGet result "msg")).getD "" = "" then
        if (asString (mapGet result "message")).getD "" = "" then
          (chosenMeta toLower metadata ns).Description
        else (asString (mapGet result "message")).getD ""
      else (asString (mapGet result "msg")).getD "" := by
  unfold resultToMisconfiguration
  dsimp only
  by_cases h1 : (asString (mapGet result "msg")).getD "" = ""
  · simp only [h1, ↓reduceIte]
  · simp only [h1, ↓reduceIte]

/-- C13: message resolution order. The `Message` of the finding is the output's `msg`
when that is a non-empty string; otherwise its `message` when that is a non-empty
string; otherwise the `Description` of the metadata record read for the finding. -/
theorem resultToMisconfiguration_message_order (toLower : String → String)
    (metadata : MetadataMap) (result : GoMap) (ns targetPath : String) :
    (∀ s, mapGet result "msg" = some (.str s) → s ≠ "" →
      (resultToMisconfiguration toLower metadata result ns targetPath).Message = s) ∧
    ((∀ s, mapGet result "msg" = some (.str s) → s = "") →
      ∀ s, mapGet result "message" = some (.str s) → s ≠ "" →
      (resultToMisconfiguration toLower metadata result ns targetPath).Message = s) ∧
    ((∀ s, mapGet result "msg" = some (.str s) → s = "") →
      (∀ s, mapGet result "message" = some (.str s) → s = "") →
      (resultToMisconfiguration toLower metadata result ns targetPath).Message =
        (chosenMeta toLower metadata ns).Description) := by
  refine ⟨?_, ?_, ?_⟩
  · intro s hs hne
    rw [resultToMisconfiguration_Message, asString_getD_of_some _ s hs, if_neg hne]
  · intro hmsg s hs hne
    rw [resultToMisconfiguration_Message, if_pos ((asString_getD_eq_empty _).2 hmsg),
      asString_getD_of_some _ s hs, if_neg hne]
  · intro hmsg hmessage
    rw [resultToMisconfiguration_Message, if_pos ((asString_getD_eq_empty _).2 hmsg),
      if_pos ((asString_getD_eq_empty _).2 hmessage)]

/-- C13 on an output whose `msg` is empty and whose `message` is set. -/
theorem resultToMisconfiguration_message_order_witness :
    (resultToMisconfiguration asciiLower bucketLoader.metadata
      [("msg", .str ""), ("message", .str "ACL is public-read")]
      "builtin.aws.s3" "main.tf").Message = "ACL is public-read" :=
  (resultToMisconfiguration_message_order asciiLower bucketLoader.metadata
    [("msg", .str ""), ("message", .str "ACL is public-read")] "builtin.aws.s3" "main.tf").2.1
    (by
      intro s hs
      simp only [mapGet, ↓reduceIte, Option.some.injEq, Value.str.injEq] at hs
      exact hs.symm)
    "ACL is public-read" (by decide) (by decide)

theorem lineOf_pos_iff (v : Option Value) :
    lineOf v > 0 ↔ ∃ line, v = some (.num line) ∧ floatToInt line > 0 := by
  unfold lineOf
  split
  · rename_i line
    constructor
    · intro h; exact ⟨line, rfl, h⟩
    · rintro ⟨l, hl, hpos⟩
      cases hl
      exact hpos
  · rename_i hv
    constructor
    · intro h; exact absurd h (by decide)
    · rintro ⟨l, hl, _⟩
      exact absurd hl (hv l)

/-- The cause metadata of the finding, as computed. -/
theorem resultToMisconfiguration_CauseMetadata (toLower : String → String)
    (metadata : MetadataMap) (result : GoMap) (ns targetPath : String) :
    (resultToMisconfiguration toLower metadata result ns targetPath).CauseMetadata =
      if (asString (mapGet result "resource")).getD "" ≠ "" ∨
          lineOf (mapGet result "startline") > 0 then
        some { Resource := (asString (mapGet result "resource")).getD "",
               Provider := (chosenMeta toLower metadata ns).Provider,
               Service := (chosenMeta toLower metadata ns).Service,
               StartLine := lineOf (mapGet result "startline"),
               EndLine := lineOf (mapGet result "endline") }
      else none := by
  unfold resultToMisconfiguration
  rfl

/-- What the code computes for the cause metadata: it is present exactly when the
output has a non-empty string `resource` or a `float64` `startline` that `int(line)`
converts to a positive number; when present, it holds the resource and the two line
numbers read that way and the provider and service of the metadata record read. -/
theorem resultToMisconfiguration_cause_iff (toLower : String → String)
    (metadata : MetadataMap) (result : GoMap) (ns targetPath : String) :
    ((resultToMisconfiguration toLower metadata result ns targetPath).CauseMetadata ≠ none ↔
      ((∃ s, mapGet result "resource" = some (.str s) ∧ s ≠ "") ∨
       (∃ line, mapGet result "startline" = some (.num line) ∧ floatToInt line > 0))) ∧
    (∀ cm, (resultToMisconfiguration toLower metadata result ns targetPath).CauseMetadata
        = some cm →
      cm.Resource = (asString (mapGet result "resource")).getD "" ∧
      cm.StartLine = lineOf (mapGet result "startline") ∧
      cm.EndLine = lineOf (mapGet result "endline") ∧
      cm.Provider = (chosenMeta toLower metadata ns).Provider ∧
      cm.Service = (chosenMeta toLower metadata ns).Service) := by
  have hres : (asString (mapGet result "resource")).getD "" ≠ "" ↔
      ∃ s, mapGet result "resource" = some (.str s) ∧ s ≠ "" := by
    rw [Ne, asString_getD_eq_empty]
    constructor
    · intro h
      by_contra hno
      exact h (fun s hs => by_contra fun hne => hno ⟨s, hs, hne⟩)
    · rintro ⟨s, hs, hne⟩ h
      exact hne (h s hs)
  rw [resultToMisconfiguration_CauseMetadata]
  constructor
  · rw [← hres, ← lineOf_pos_iff]
    by_cases hc : (asString (mapGet result "resource")).getD "" ≠ "" ∨
        lineOf (mapGet result "startline") > 0
    · simp only [hc, ↓reduceIte, ne_eq, not_false_eq_true, iff_true]
      exact fun h => Option.noConfusion h
    · simp only [hc, ↓reduceIte, ne_eq, not_true_eq_false]
  · intro cm hcm
    by_cases hc : (asString (mapGet result "resource")).getD "" ≠ "" ∨
        lineOf (mapGet result "startline") > 0
    · rw [if_pos hc] at hcm
      cases hcm
      exact ⟨rfl, rfl, rfl, rfl, rfl⟩
    · rw [if_neg hc] at hcm
      cases hcm

/-- A line number that arrives as `json.Number` is read as 0. -/
theorem lineOf_jsonNumber (text : String) : lineOf (some (.jsonNumber text)) = 0 := rfl

/-- The cause metadata of an output whose `startline` is a `json.Number`: present
exactly when `resource` is a non-empty string, and then with `StartLine` 0. -/
theorem cause_of_jsonNumber_startline (toLower : String → String) (metadata : MetadataMap)
    (result : GoMap) (ns targetPath text : String)
    (h : mapGet result "startline" = some (.jsonNumber text)) :
    ((resultToMisconfiguration toLower metadata result ns targetPath).CauseMetadata ≠ none ↔
      ∃ s, mapGet result "resource" = some (.str s) ∧ s ≠ "") ∧
    (∀ cm, (resultToMisconfiguration toLower metadata result ns targetPath).CauseMetadata
        = some cm → cm.StartLine = 0) := by
  obtain ⟨h1, h2⟩ := resultToMisconfiguration_cause_iff toLower metadata result ns targetPath
  constructor
  · rw [h1]
    constructor
    · rintro (hr | ⟨line, hl, _⟩)
      · exact hr
      · rw [h] at hl
        cases hl
    · intro hr
      exact Or.inl hr
  · intro cm hcm
    rw [(h2 cm hcm).2.1, h]
    rfl

/-- C14 (the code departs from the claim): the rego runtime returns the numbers of a rule
output as `json.Number`, for which the assertion `result["startline"].(float64)` fails.
The output with `startline` 3 and no resource gets no `CauseMetadata`, and the output
with `resource` and `startline` 12, `endline` 14 gets one whose `StartLine` and
`EndLine` are 0. -/
theorem resultToMisconfiguration_json_number_line_lost :
    (resultToMisconfiguration asciiLower bucketLoader.metadata
      [("message", .str "ACL is public-read"), ("startline", .jsonNumber "3"),
        ("endline", .jsonNumber "3")]
      "builtin.aws.s3" "main.tf").CauseMetadata = none ∧
    (resultToMisconfiguration asciiLower bucketLoader.metadata
      [("msg", .str "Bucket is public"), ("resource", .str "aws_s3_bucket.b"),
        ("startline", .jsonNumber "12"), ("endline", .jsonNumber "14")]
      "builtin.aws.s3" "main.tf").CauseMetadata =
        some { Resource := "aws_s3_bucket.b", Provider := "AWS", Service := "s3",
               StartLine := 0, EndLine := 0 } ∧
    ∃ findings,
      Scan bucketEval asciiLower bucketLoader "main.tf" = .ok findings ∧
      findings.map (fun f => f.CauseMetadata) =
        [some { Resource := "aws_s3_bucket.b", Provider := "AWS", Service := "s3",
                StartLine := 0, EndLine := 0 },
         none, none] :=
  ⟨by decide, by decide, _, rfl, by decide⟩

/-- The query field of every finding names the `deny` rule of the namespace. -/
theorem resultToMisconfiguration_Query (toLower : String → String) (metadata : MetadataMap)
    (result : GoMap) (ns targetPath : String) :
    (resultToMisconfiguration toLower metadata result ns targetPath).Query =
      "data." ++ ns ++ ".deny" := by
  unfold resultToMisconfiguration
  rfl

/-- C15 (the code departs from the claim): the only output of the `warn` query of
`builtin.aws.s3` becomes a finding with `Status` `WARN` whose `Query` is
`data.builtin.aws.s3.deny`, not the evaluated `data.builtin.aws.s3.warn`. -/
theorem Scan_warn_finding_has_deny_query :
    familyResults bucketEval "builtin.aws.s3" "warn" =
      [[("msg", .str "Versioning is off"), ("_severity", .str "FAIL")]] ∧
    ∃ findings,
      Scan bucketEval asciiLower bucketLoader "main.tf" = .ok findings ∧
      findings.map (fun f => (f.Message, f.Status, f.Query)) =
        [("Bucket is public", "FAIL", "data.builtin.aws.s3.deny"),
         ("ACL is public-read", "FAIL", "data.builtin.aws.s3.deny"),
         ("Versioning is off", "WARN", "data.builtin.aws.s3.deny")] :=
  ⟨by decide, _, rfl, by decide⟩

/-! ### `evaluateModule` -/

theorem tagInto_eq (tag : String) (results : List GoMap) :
    ∀ allResults : List GoMap,
      tagInto tag allResults results = allResults ++ tagged tag results := by
  induction results with
  | nil => intro allResults; simp [tagInto, tagged]
  | cons r rest ih =>
    intro allResults
    have h := ih (allResults ++ [mapSet r "_severity" (.str tag)])
    simp only [tagInto, tagged, List.foldl_cons, List.map_cons] at h ⊢
    rw [h]
    simp

/-- The output of `evaluateModule`: the three families in order, each tagged. -/
theorem evaluateModule_eq (eval : String → EvalOutcome) (ns : String) :
    evaluateModule eval ns =
      .ok (tagged "FAIL" (familyResults eval ns "deny") ++
        tagged "FAIL" (familyResults eval ns "violation") ++
        tagged "WARN" (familyResults eval ns "warn")) := by
  unfold evaluateModule familyResults
  dsimp only
  cases evaluateRule eval ns "deny" <;> cases evaluateRule eval ns "violation" <;>
    cases evaluateRule eval ns "warn" <;> simp [tagInto_eq, tagged]

/-- The status of the finding, as computed from the `_severity` entry. -/
theorem resultToMisconfiguration_Status (toLower : String → String)
    (metadata : MetadataMap) (result : GoMap) (ns targetPath : String) :
    (resultToMisconfiguration toLower metadata result ns targetPath).Status =
      match asString (mapGet result "_severity") with
      | some severity => if severity = "WARN" then "WARN" else "FAIL"
      | none => "FAIL" := by
  unfold resultToMisconfiguration
  rfl

theorem Status_warn_iff (toLower : String → String) (metadata : MetadataMap)
    (result : GoMap) (ns targetPath : String) :
    (resultToMisconfiguration toLower metadata result ns targetPath).Status = "WARN" ↔
      mapGet result "_severity" = some (.str "WARN") := by
  rw [resultToMisconfiguration_Status, ← asString_eq_some]
  have hne : ¬ ("FAIL" : String) = "WARN" := by decide
  cases asString (mapGet result "_severity") with
  | none => simp [hne]
  | some s =>
    by_cases hs : s = "WARN"
    · simp [hs]
    · simp [hs, hne]

theorem Status_of_tagged (toLower : String → String) (metadata : MetadataMap)
    (tag : String) (results : List GoMap) (ns targetPath : String) (r : GoMap)
    (hr : r ∈ tagged tag results) :
    (resultToMisconfiguration toLower metadata r ns targetPath).Status =
      if tag = "WARN" then "WARN" else "FAIL" := by
  obtain ⟨r0, _, rfl⟩ := List.mem_map.1 hr
  rw [resultToMisconfiguration_Status,
    (asString_eq_some _ tag).2 (mapGet_mapSet_same r0 "_severity" (.str tag))]

/-- C16: family isolation. `evaluateModule` never returns an error; its output is the
`deny` results tagged `FAIL`, then the `violation` results tagged `FAIL`, then the `warn`
results tagged `WARN`, where a family whose query evaluation errors contributes no
results and leaves the other two as they are. The finding of a `deny` or `violation`
result has `Status` `FAIL`, that of a `warn` result `WARN`, and in general `Status` is
`WARN` exactly when the `_severity` entry is the string `WARN`, else `FAIL`. -/
theorem evaluateModule_family_isolation (eval : String → EvalOutcome)
    (toLower : String → String) (metadata : MetadataMap) (ns targetPath : String) :
    evaluateModule eval ns =
      .ok (tagged "FAIL" (familyResults eval ns "deny") ++
        tagged "FAIL" (familyResults eval ns "violation") ++
        tagged "WARN" (familyResults eval ns "warn")) ∧
    (∀ ruleName e, evaluateRule eval ns ruleName = .error e →
      familyResults eval ns ruleName = []) ∧
    (∀ ruleName results, evaluateRule eval ns ruleName = .ok results →
      familyResults eval ns ruleName = results) ∧
    (∀ r ∈ tagged "FAIL" (familyResults eval ns "deny") ++
        tagged "FAIL" (familyResults eval ns "violation"),
      (resultToMisconfiguration toLower metadata r ns targetPath).Status = "FAIL") ∧
    (∀ r ∈ tagged "WARN" (familyResults eval ns "warn"),
      (resultToMisconfiguration toLower metadata r ns targetPath).Status = "WARN") ∧
    (∀ r : GoMap,
      ((resultToMisconfiguration toLower metadata r ns targetPath).Status = "WARN" ↔
        mapGet r "_severity" = some (.str "WARN")) ∧
      ((resultToMisconfiguration toLower metadata r ns targetPath).Status ≠ "WARN" →
        (resultToMisconfiguration toLower metadata r ns targetPath).Status = "FAIL")) := by
  refine ⟨evaluateModule_eq eval ns, ?_, ?_, ?_, ?_, ?_⟩
  · intro ruleName e h
    simp [familyResults, h]
  · intro ruleName results h
    simp [familyResults, h]
  · intro r hr
    rcases List.mem_append.1 hr with h | h
    · exact (Status_of_tagged toLower metadata "FAIL" _ ns targetPath r h).trans
        (by decide)
    · exact (Status_of_tagged toLower metadata "FAIL" _ ns targetPath r h).trans
        (by decide)
  · intro r hr
    exact (Status_of_tagged toLower metadata "WARN" _ ns targetPath r hr).trans
      (by decide)
  · intro r
    refine ⟨Status_warn_iff toLower metadata r ns targetPath, ?_⟩
    rw [resultToMisconfiguration_Status]
    cases asString (mapGet r "_severity") with
    | none => intro _; rfl
    | some s =>
      by_cases hs : s = "WARN"
      · simp [hs]
      · simp [hs]

/-- C16 on a namespace whose `violation` query fails: the two `deny` outputs and the
`warn` output are all returned, and the `warn` output, which came with its own
`_severity` entry, is tagged `WARN`. -/
theorem evaluateModule_family_isolation_witness :
    evaluateRule bucketEval "builtin.aws.s3" "violation" = .error "eval_internal_error" ∧
    familyResults bucketEval "builtin.aws.s3" "violation" = [] ∧
    evaluateModule bucketEval "builtin.aws.s3" =
      .ok [[("msg", .str "Bucket is public"), ("resource", .str "aws_s3_bucket.b"),
              ("startline", .jsonNumber "12"), ("endline", .jsonNumber "14"),
              ("_severity", .str "FAIL")],
           [("message", .str "ACL is public-read"), ("startline", .jsonNumber "3"),
              ("endline", .jsonNumber "3"), ("_severity", .str "FAIL")],
           [("msg", .str "Versioning is off"), ("_severity", .str "WARN")]] ∧
    (resultToMisconfiguration asciiLower bucketLoader.metadata
      [("msg", .str "Versioning is off"), ("_severity", .str "WARN")]
      "builtin.aws.s3" "main.tf").Status = "WARN" :=
  have hw := evaluateModule_family_isolation bucketEval asciiLower bucketLoader.metadata
    "builtin.aws.s3" "main.tf"
  ⟨rfl, hw.2.1 "violation" "eval_internal_error" rfl, hw.1.trans rfl,
    hw.2.2.2.2.1 [("msg", .str "Versioning is off"), ("_severity", .str "WARN")]
      (by decide)⟩

/-! ### Metadata correlation -/

theorem containsChars_nil (s : List Char) : containsChars s [] = true := by
  cases s <;> simp [containsChars]

theorem Contains_empty (s : String) : Contains s "" = true := by
  unfold Contains
  exact containsChars_nil s.data

theorem findMeta_eq_none_iff (toLower : String → String) (metadata : MetadataMap)
    (ns : String) :
    findMeta toLower metadata ns = none ↔
      ∀ km ∈ metadata, Contains ns (toLower km.2.Service) = false := by
  unfold findMeta
  rw [Option.map_eq_none', List.find?_eq_none]
  constructor
  · intro h km hkm
    simpa using h km hkm
  · intro h km hkm
    simpa using h km hkm

/-- The finding copies its identity fields from the metadata record read. -/
theorem resultToMisconfiguration_meta_fields (toLower : String → String)
    (metadata : MetadataMap) (result : GoMap) (ns targetPath : String) :
    (resultToMisconfiguration toLower metadata result ns targetPath).ID =
      (chosenMeta toLower metadata ns).ID ∧
    (resultToMisconfiguration toLower metadata result ns targetPath).AVDID =
      (chosenMeta toLower metadata ns).AVDID ∧
    (resultToMisconfiguration toLower metadata result ns targetPath).Title =
      (chosenMeta toLower metadata ns).Title ∧
    (resultToMisconfiguration toLower metadata result ns targetPath).Description =
      (chosenMeta toLower metadata ns).Description ∧
    (resultToMisconfiguration toLower metadata result ns targetPath).Severity =
      (chosenMeta toLower metadata ns).Severity ∧
    (resultToMisconfiguration toLower metadata result ns targetPath).Resolution =
      (chosenMeta toLower metadata ns).Resolution ∧
    (resultToMisconfiguration toLower metadata result ns targetPath).References =
      (chosenMeta toLower metadata ns).References := by
  unfold resultToMisconfiguration
  exact ⟨rfl, rfl, rfl, rfl, rfl, rfl, rfl⟩

/-- C17: metadata correlation. For every namespace, the lookup finds no record exactly
when no record of the corpus has a lower-cased `Service` occurring in the namespace. In
that case every finding is built from the synthesized fallback record: `ID = AVDID =
namespace`, title `Security Check`, severity `MEDIUM`. Otherwise the lookup finds a
record of the corpus whose lower-cased `Service` occurs in the namespace, and every
finding carries the `ID`, `AVDID`, `Title`, `Description`, `Severity`, `Resolution` and
`References` of that record. As lower-casing the empty string gives the empty string,
which occurs in every namespace, a corpus holding a record with an empty `Service`
has a matching record for every namespace, and every finding of every namespace is built
from a corpus record, never from the fallback. -/
theorem findMeta_fallback_iff (toLower : String → String) (metadata : MetadataMap) :
    (∀ ns : String,
      (findMeta toLower metadata ns = none ↔
        ∀ km ∈ metadata, Contains ns (toLower km.2.Service) = false) ∧
      (findMeta toLower metadata ns = none →
        chosenMeta toLower metadata ns = fallbackMeta ns ∧
        ∀ result targetPath,
          (resultToMisconfiguration toLower metadata result ns targetPath).ID = ns ∧
          (resultToMisconfiguration toLower metadata result ns targetPath).AVDID = ns ∧
          (resultToMisconfiguration toLower metadata result ns targetPath).Title =
            "Security Check" ∧
          (resultToMisconfiguration toLower metadata result ns targetPath).Severity =
            "MEDIUM") ∧
      (∀ m, findMeta toLower metadata ns = some m →
        chosenMeta toLower metadata ns = m ∧ (∃ k, (k, m) ∈ metadata) ∧
        Contains ns (toLower m.Service) = true ∧
        ∀ result targetPath,
          (resultToMisconfiguration toLower metadata result ns targetPath).ID = m.ID ∧
          (resultToMisconfiguration toLower metadata result ns targetPath).AVDID =
            m.AVDID ∧
          (resultToMisconfiguration toLower metadata result ns targetPath).Title =
            m.Title ∧
          (resultToMisconfiguration toLower metadata result ns targetPath).Description =
            m.Description ∧
          (resultToMisconfiguration toLower metadata result ns targetPath).Severity =
            m.Severity ∧
          (resultToMisconfiguration toLower metadata result ns targetPath).Resolution =
            m.Resolution ∧
          (resultToMisconfiguration toLower metadata result ns targetPath).References =
            m.References)) ∧
    (toLower "" = "" → (∃ km ∈ metadata, km.2.Service = "") →
      ∀ (ns : String) (result : GoMap) (targetPath : String),
        ∃ k m, (k, m) ∈ metadata ∧ findMeta toLower metadata ns = some m ∧
          chosenMeta toLower metadata ns = m ∧
          (resultToMisconfiguration toLower metadata result ns targetPath).ID = m.ID ∧
          (resultToMisconfiguration toLower metadata result ns targetPath).AVDID =
            m.AVDID ∧
          (resultToMisconfiguration toLower metadata result ns targetPath).Title =
            m.Title ∧
          (resultToMisconfiguration toLower metadata result ns targetPath).Severity =
            m.Severity) := by
  have hsome : ∀ ns m, findMeta toLower metadata ns = some m →
      chosenMeta toLower metadata ns = m ∧ (∃ k, (k, m) ∈ metadata) ∧
      Contains ns (toLower m.Service) = true := by
    intro ns m hm
    refine ⟨by simp [chosenMeta, hm], ?_⟩
    unfold findMeta at hm
    obtain ⟨km, hfind, rfl⟩ := Option.map_eq_some'.1 hm
    have hp := @List.find?_some _
      (fun km : String × PolicyMetadata => Contains ns (toLower km.2.Service)) km metadata
      hfind
    exact ⟨⟨km.1, List.mem_of_find?_eq_some hfind⟩, hp⟩
  constructor
  · intro ns
    refine ⟨findMeta_eq_none_iff toLower metadata ns, ?_, ?_⟩
    · intro hnone
      have hc : chosenMeta toLower metadata ns = fallbackMeta ns := by
        simp [chosenMeta, hnone]
      refine ⟨hc, ?_⟩
      intro result targetPath
      obtain ⟨f1, f2, f3, _, f5, _, _⟩ :=
        resultToMisconfiguration_meta_fields toLower metadata result ns targetPath
      rw [f1, f2, f3, f5, hc]
      exact ⟨rfl, rfl, rfl, rfl⟩
    · intro m hm
      obtain ⟨h1, h2, h3⟩ := hsome ns m hm
      refine ⟨h1, h2, h3, ?_⟩
      intro result targetPath
      have hf := resultToMisconfiguration_meta_fields toLower metadata result ns targetPath
      rw [h1] at hf
      exact hf
  · intro htl hex ns result targetPath
    obtain ⟨km, hkm, hsvc⟩ := hex
    cases hf : findMeta toLower metadata ns with
    | none =>
      have hno := (findMeta_eq_none_iff toLower metadata ns).1 hf km hkm
      rw [hsvc, htl, Contains_empty] at hno
      exact absurd hno (by decide)
    | some m =>
      obtain ⟨h1, ⟨k, hk⟩, _⟩ := hsome ns m hf
      obtain ⟨f1, f2, f3, _, f5, _, _⟩ :=
        resultToMisconfiguration_meta_fields toLower metadata result ns targetPath
      rw [h1] at f1 f2 f3 f5
      exact ⟨k, m, hk, rfl, h1, f1, f2, f3, f5⟩

/-- C17 on a corpus holding a record with an empty service: the namespace
`builtin.gcp.storage` contains no service name of the corpus, and its finding is still
built from a corpus record, the library record, not from the fallback (whose `ID` would
be the namespace); on the corpus without that record the same namespace gets the
fallback. -/
theorem findMeta_fallback_iff_witness :
    extractMetadata asciiUpper libModule = some libRecord ∧ libRecord.Service = "" ∧
    Contains "builtin.gcp.storage" (asciiLower twoRefsRecord.Service) = false ∧
    (resultToMisconfiguration asciiLower libCorpus [("msg", .str "Bucket is public")]
      "builtin.gcp.storage" "main.tf").ID = "LIB-0001" ∧
    (resultToMisconfiguration asciiLower libCorpus [("msg", .str "Bucket is public")]
      "builtin.gcp.storage" "main.tf").Title = "Helpers" ∧
    (resultToMisconfiguration asciiLower bucketLoader.metadata
      [("msg", .str "Bucket is public")] "builtin.gcp.storage" "main.tf").ID =
        "builtin.gcp.storage" ∧
    ∃ k m, (k, m) ∈ libCorpus ∧
      findMeta asciiLower libCorpus "builtin.gcp.storage" = some m ∧
      chosenMeta asciiLower libCorpus "builtin.gcp.storage" = m ∧
      (resultToMisconfiguration asciiLower libCorpus [("msg", .str "Bucket is public")]
        "builtin.gcp.storage" "main.tf").ID = m.ID ∧
      (resultToMisconfiguration asciiLower libCorpus [("msg", .str "Bucket is public")]
        "builtin.gcp.storage" "main.tf").AVDID = m.AVDID ∧
      (resultToMisconfiguration asciiLower libCorpus [("msg", .str "Bucket is public")]
        "builtin.gcp.storage" "main.tf").Title = m.Title ∧
      (resultToMisconfiguration asciiLower libCorpus [("msg", .str "Bucket is public")]
        "builtin.gcp.storage" "main.tf").Severity = m.Severity :=
  have hsome := (((findMeta_fallback_iff asciiLower libCorpus).1 "builtin.gcp.storage").2.2
    libRecord (by decide)).2.2.2 [("msg", .str "Bucket is public")] "main.tf"
  have hnone := (((findMeta_fallback_iff asciiLower bucketLoader.metadata).1
    "builtin.gcp.storage").2.1 (by decide)).2 [("msg", .str "Bucket is public")] "main.tf"
  ⟨by decide, rfl, by decide, hsome.1.trans rfl, hsome.2.2.1.trans rfl, hnone.1,
    (findMeta_fallback_iff asciiLower libCorpus).2 (by decide)
      ⟨("LIB-0001", libRecord), by decide, rfl⟩ "builtin.gcp.storage"
      [("msg", .str "Bucket is public")] "main.tf"⟩

/-! ### `processBlock` on a block as written -/

theorem partialContentStar_eq_nil (blocks : List SyntaxBlock)
    (h : ∀ b ∈ blocks, b.type ≠ "*") : partialContentStar blocks = [] := by
  induction blocks with
  | nil => simp [partialContentStar]
  | cons b rest ih =>
    cases b with
    | mk type labels attrs blocks =>
      have hne : type ≠ "*" := h _ (List.mem_cons_self _ _)
      simp only [partialContentStar, hne, ↓reduceIte]
      exact ih (fun c hc => h c (List.mem_cons_of_mem _ hc))

/-- For a block written with at least one nested block (block types are identifiers, so
none is named `*`), `processBlock` returns the empty map: no nested block is collected
and the attributes are skipped as well. -/
theorem processBlock_with_nested_is_empty (round64 : ℚ → ℚ) (sb : SyntaxBlock)
    (hne : sb.blocks ≠ []) (hid : ∀ b ∈ sb.blocks, b.type ≠ "*") :
    processBlock round64 sb.toBlock = [] := by
  cases sb with
  | mk type labels attrs blocks =>
    have hne2 : blocks ≠ [] := hne
    have hfalse : blocks.isEmpty = false := by
      cases blocks with
      | nil => exact absurd rfl hne2
      | cons _ _ => rfl
    simp [SyntaxBlock.toBlock, processBlock, partialContentStar_eq_nil blocks hid,
      processNested, processAttrs, hfalse]

/-- C4 (the code departs from the claim): in `resource "aws_s3_bucket" "b"` with the
attribute `acl` and two nested `rule` blocks, the type `rule` occurs twice and names no
attribute, yet `processBlock` binds no key `rule`: the schema type `*` matches no block,
so `PartialContent` returns none, and since `JustAttributes` reports an error for a body
with blocks the attribute `acl` is skipped too. The claim requires the list of the two
rule bodies under `rule`. -/
theorem processBlock_drops_nested_blocks :
    (bucketBlock.blocks.filter fun b => b.type = "rule").length = 2 ∧
    (∀ a ∈ bucketBlock.attrs, a.name ≠ "rule") ∧
    bucketBlock.toBlock =
      .mk "resource" ["aws_s3_bucket", "b"] [⟨"acl", .ok (.string "private"), ⟨40, 49⟩⟩]
        true [] ∧
    processBlock id bucketBlock.toBlock = [] ∧
    mapGet (processBlock id bucketBlock.toBlock) "rule" = none ∧
    processBlock id (SyntaxBlock.toBlock (.mk "rule" [] [⟨"id", .ok (.number 1), ⟨64, 65⟩⟩] []))
      = [("id", .num 1)] :=
  ⟨by decide, by decide, rfl, by decide, by decide, by decide⟩
